import Mathlib

/-!
# Verification of the crossword synthesis core (rss-crossword)

Shallow embedding of `crosswordGenerator.ts` (src/unnamed/part_005) and the
answer-check / hint functions of `src/server/src/services/puzzleService.ts`.

Modelling conventions:
* A grapheme is its Unicode scalar value, a `Nat` (the source splits strings
  into single UTF-16 code units; every character this application handles —
  kana, Latin, digits — is one BMP code unit).
* A grid is a total function `Nat → Nat → Option Nat`; `none` is a blocked
  cell, `some g` a letter cell.  The JS code uses an `N × N` array of
  `string | null`; all reads and writes stay inside `0..N-1`.
* The JS `density` is `filled / N² * 100`, a float used only in comparisons
  against other densities over the same `N²` and against the constant 80.
  Both comparisons are decided exactly by the filled-cell counts
  (`filled₁ > filled₂`, `5 * filled ≥ 4 * N²`), so the embedding carries the
  filled-cell count instead of the float.
* `Math.random()`-driven choices (the per-attempt shuffle) are an explicit
  parameter `rng : Nat → List WordClue → List WordClue`; the JS shuffle
  always produces a permutation of its input, which theorems take as a
  hypothesis where they need it.
-/

namespace Crossword

/-! ## Text normalizer (`normalizeJapanese`, part_005 lines 32-55)

The source maps hiragana U+3041..U+3096 to katakana (adding 0x60), folds the
ten small kana to their full-sized versions, and calls
`String.prototype.toUpperCase`.  Every step is a per-character map on the
character classes involved (each regex replaces one BMP character with one
BMP character).  `toUpperCase` is modelled on the ranges it can affect here:
ASCII `a..z` and full-width `ａ..ｚ` Latin letters. -/

def hiraToKata (c : Nat) : Nat :=
  if 0x3041 ≤ c ∧ c ≤ 0x3096 then c + 0x60 else c

def smallFold (c : Nat) : Nat :=
  if c = 0x30A1 then 0x30A2        -- ァ → ア
  else if c = 0x30A3 then 0x30A4   -- ィ → イ
  else if c = 0x30A5 then 0x30A6   -- ゥ → ウ
  else if c = 0x30A7 then 0x30A8   -- ェ → エ
  else if c = 0x30A9 then 0x30AA   -- ォ → オ
  else if c = 0x30C3 then 0x30C4   -- ッ → ツ
  else if c = 0x30E3 then 0x30E4   -- ャ → ヤ
  else if c = 0x30E5 then 0x30E6   -- ュ → ユ
  else if c = 0x30E7 then 0x30E8   -- ョ → ヨ
  else if c = 0x30EE then 0x30EF   -- ヮ → ワ
  else c

def upperLatin (c : Nat) : Nat :=
  if 0x61 ≤ c ∧ c ≤ 0x7A then c - 0x20
  else if 0xFF41 ≤ c ∧ c ≤ 0xFF5A then c - 0x20
  else c

def normChar (c : Nat) : Nat :=
  upperLatin (smallFold (hiraToKata c))

def normalizeJapanese (text : List Nat) : List Nat :=
  ((text.map hiraToKata).map smallFold).map upperLatin

theorem normalizeJapanese_eq_map (text : List Nat) :
    normalizeJapanese text = text.map normChar := by
  unfold normalizeJapanese
  rw [List.map_map, List.map_map]
  exact List.map_congr_left fun c _ => rfl

theorem hiraToKata_eq_or (c : Nat) :
    (hiraToKata c = c ∧ ¬(0x3041 ≤ c ∧ c ≤ 0x3096)) ∨
      (hiraToKata c = c + 0x60 ∧ 0x3041 ≤ c ∧ c ≤ 0x3096) := by
  unfold hiraToKata
  split_ifs <;> omega

theorem smallFold_eq_or (x : Nat) :
    smallFold x = x ∨
      (smallFold x = x + 1 ∧
        (x = 0x30A1 ∨ x = 0x30A3 ∨ x = 0x30A5 ∨ x = 0x30A7 ∨ x = 0x30A9 ∨
         x = 0x30C3 ∨ x = 0x30E3 ∨ x = 0x30E5 ∨ x = 0x30E7 ∨ x = 0x30EE)) := by
  unfold smallFold
  split_ifs <;> omega

theorem smallFold_fix (x : Nat)
    (h : ¬(x = 0x30A1 ∨ x = 0x30A3 ∨ x = 0x30A5 ∨ x = 0x30A7 ∨ x = 0x30A9 ∨
           x = 0x30C3 ∨ x = 0x30E3 ∨ x = 0x30E5 ∨ x = 0x30E7 ∨ x = 0x30EE)) :
    smallFold x = x := by
  unfold smallFold
  split_ifs <;> omega

theorem smallFold_idem (x : Nat) : smallFold (smallFold x) = smallFold x := by
  rcases smallFold_eq_or x with h | ⟨h, hr⟩
  · rw [h, h]
  · rw [h]
    exact smallFold_fix _ (by omega)

theorem upperLatin_eq_or (x : Nat) :
    (upperLatin x = x ∧ ¬(0x61 ≤ x ∧ x ≤ 0x7A) ∧ ¬(0xFF41 ≤ x ∧ x ≤ 0xFF5A)) ∨
      (upperLatin x = x - 0x20 ∧ 0x61 ≤ x ∧ x ≤ 0x7A) ∨
      (upperLatin x = x - 0x20 ∧ 0xFF41 ≤ x ∧ x ≤ 0xFF5A) := by
  unfold upperLatin
  split_ifs <;> omega

theorem upperLatin_fix (x : Nat) (h1 : ¬(0x61 ≤ x ∧ x ≤ 0x7A))
    (h2 : ¬(0xFF41 ≤ x ∧ x ≤ 0xFF5A)) : upperLatin x = x := by
  unfold upperLatin
  rw [if_neg h1, if_neg h2]

/-- The output of `normChar` is a fixed point of each of the three stages. -/
theorem normChar_out (c : Nat) :
    ¬(0x3041 ≤ normChar c ∧ normChar c ≤ 0x3096) ∧
      smallFold (normChar c) = normChar c ∧
      ¬(0x61 ≤ normChar c ∧ normChar c ≤ 0x7A) ∧
      ¬(0xFF41 ≤ normChar c ∧ normChar c ≤ 0xFF5A) := by
  have hyk : ¬(0x3041 ≤ smallFold (hiraToKata c) ∧ smallFold (hiraToKata c) ≤ 0x3096) := by
    rcases hiraToKata_eq_or c with ⟨hx, hc⟩ | ⟨hx, hc⟩ <;>
      rcases smallFold_eq_or (hiraToKata c) with hy | ⟨hy, hr⟩ <;> omega
  have hys : smallFold (smallFold (hiraToKata c)) = smallFold (hiraToKata c) :=
    smallFold_idem _
  show _ ∧ _ ∧ _ ∧ _
  rcases upperLatin_eq_or (smallFold (hiraToKata c)) with ⟨hz, h1, h2⟩ | ⟨hz, hr⟩ | ⟨hz, hr⟩ <;>
    unfold normChar <;> rw [hz]
  · exact ⟨hyk, hys, h1, h2⟩
  · refine ⟨by omega, smallFold_fix _ (by omega), by omega, by omega⟩
  · refine ⟨by omega, smallFold_fix _ (by omega), by omega, by omega⟩

theorem normChar_idem (c : Nat) : normChar (normChar c) = normChar c := by
  obtain ⟨h1, h2, h3, h4⟩ := normChar_out c
  conv_lhs => rw [normChar]
  rw [show hiraToKata (normChar c) = normChar c by unfold hiraToKata; rw [if_neg h1]]
  rw [h2, upperLatin_fix _ h3 h4]

theorem normalizeJapanese_idem (text : List Nat) :
    normalizeJapanese (normalizeJapanese text) = normalizeJapanese text := by
  rw [normalizeJapanese_eq_map, normalizeJapanese_eq_map, List.map_map]
  exact List.map_congr_left fun c _ => normChar_idem c

/-! ## Grid model

The JS grid is an `N × N` array of `string | null`.  It is embedded as a
total function; out-of-range cells are `none` (they are never written). -/

def Grid : Type := Nat → Nat → Option Nat

def emptyGrid : Grid := fun _ _ => none

/-- Row of the `i`-th cell of a run starting at `row` in the given direction. -/
def cellR (row : Nat) (horizontal : Bool) (i : Nat) : Nat :=
  if horizontal then row else row + i

/-- Column of the `i`-th cell of a run starting at `col` in the given direction. -/
def cellC (col : Nat) (horizontal : Bool) (i : Nat) : Nat :=
  if horizontal then col + i else col

/-! ## Placement engine (`canPlaceWord`, part_005 lines 67-119) -/

/-- The two cells perpendicular to the run at `(r, c)` are blocked when in
bounds (the body of the `else` branch of the cell loop). -/
def perpOk (grid : Grid) (size : Nat) (horizontal : Bool) (r c : Nat) : Bool :=
  if horizontal then
    (decide (r = 0) || (grid (r-1) c).isNone) &&
      (decide (size ≤ r + 1) || (grid (r+1) c).isNone)
  else
    (decide (c = 0) || (grid r (c-1)).isNone) &&
      (decide (size ≤ c + 1) || (grid r (c+1)).isNone)

/-- The cell loop of `canPlaceWord`: `none` means some check failed, `some b`
means all checks passed and `b` records whether an intersection was seen. -/
def cellsOk (grid : Grid) (size : Nat) (row col : Nat) (horizontal : Bool) :
    List Nat → Nat → Option Bool
  | [], _ => some false
  | ch :: rest, i =>
    let r := cellR row horizontal i
    let c := cellC col horizontal i
    match grid r c with
    | some existing =>
      if existing = ch then
        match cellsOk grid size row col horizontal rest (i+1) with
        | none => none
        | some _ => some true
      else none
    | none =>
      if perpOk grid size horizontal r c then
        cellsOk grid size row col horizontal rest (i+1)
      else none

/-- The bounds / run-end early returns of `canPlaceWord` (source lines 79-88). -/
def endsOk (grid : Grid) (size : Nat) (word : List Nat) (row col : Nat)
    (horizontal : Bool) : Bool :=
  let len := word.length
  if horizontal then
    if size < col + len then false
    else if decide (0 < col) && (grid row (col-1)).isSome then false
    else if decide (col + len < size) && (grid row (col+len)).isSome then false
    else true
  else
    if size < row + len then false
    else if decide (0 < row) && (grid (row-1) col).isSome then false
    else if decide (row + len < size) && (grid (row+len) col).isSome then false
    else true

/-- `canPlaceWord` of the source, lines 67-119. -/
def canPlaceWord (grid : Grid) (size : Nat) (word : List Nat) (row col : Nat)
    (horizontal requireIntersection : Bool) : Bool :=
  if endsOk grid size word row col horizontal then
    match cellsOk grid size row col horizontal word 0 with
    | none => false
    | some hasInt => !(requireIntersection && !hasInt)
  else false

/-! ### The `can_place` contract (claim C2), stated from the spec's wording -/

/-- Spec §4.3: the run of `len(word)` cells is fully in bounds. -/
def RunInBounds (size : Nat) (word : List Nat) (row col : Nat)
    (horizontal : Bool) : Prop :=
  ∀ i < word.length, cellR row horizontal i < size ∧ cellC col horizontal i < size

/-- Spec §4.3: the cell immediately preceding the run, if in bounds, is blocked. -/
def BeforeBlocked (grid : Grid) (row col : Nat) (horizontal : Bool) : Prop :=
  if horizontal then 0 < col → grid row (col-1) = none
  else 0 < row → grid (row-1) col = none

/-- Spec §4.3: the cell immediately following the run, if in bounds, is blocked. -/
def AfterBlocked (grid : Grid) (size : Nat) (word : List Nat) (row col : Nat)
    (horizontal : Bool) : Prop :=
  if horizontal then col + word.length < size → grid row (col + word.length) = none
  else row + word.length < size → grid (row + word.length) col = none

/-- Spec §4.3: both cells perpendicular to the run at `(r, c)`, if in bounds,
are blocked. -/
def PerpBlocked (grid : Grid) (size : Nat) (horizontal : Bool) (r c : Nat) : Prop :=
  if horizontal then
    (0 < r → grid (r-1) c = none) ∧ (r + 1 < size → grid (r+1) c = none)
  else
    (0 < c → grid r (c-1) = none) ∧ (c + 1 < size → grid r (c+1) = none)

/-- Spec §4.3: each position of the run either holds the matching letter (an
intersection) or is blocked with blocked perpendicular neighbours. -/
def CellCond (grid : Grid) (size : Nat) (word : List Nat) (row col : Nat)
    (horizontal : Bool) (j : Nat) (hj : j < word.length) : Prop :=
  grid (cellR row horizontal j) (cellC col horizontal j) = some (word.get ⟨j, hj⟩) ∨
    (grid (cellR row horizontal j) (cellC col horizontal j) = none ∧
      PerpBlocked grid size horizontal (cellR row horizontal j) (cellC col horizontal j))

/-- The full `can_place` contract of spec §4.3 / claim C2. -/
def CanPlaceSpec (grid : Grid) (size : Nat) (word : List Nat) (row col : Nat)
    (horizontal requireIntersection : Bool) : Prop :=
  RunInBounds size word row col horizontal ∧
  BeforeBlocked grid row col horizontal ∧
  AfterBlocked grid size word row col horizontal ∧
  (∀ j (hj : j < word.length), CellCond grid size word row col horizontal j hj) ∧
  (requireIntersection = true →
    ∃ j < word.length,
      (grid (cellR row horizontal j) (cellC col horizontal j)).isSome = true)

theorem perpOk_iff (grid : Grid) (size : Nat) (horizontal : Bool) (r c : Nat) :
    perpOk grid size horizontal r c = true ↔ PerpBlocked grid size horizontal r c := by
  cases horizontal <;>
    simp [perpOk, PerpBlocked, Option.isNone_iff_eq_none, Decidable.imp_iff_not_or,
      Nat.not_lt, Nat.pos_iff_ne_zero, or_comm]

theorem cellsOk_isSome_iff (grid : Grid) (size : Nat) (row col : Nat)
    (horizontal : Bool) :
    ∀ (word : List Nat) (i : Nat),
      (cellsOk grid size row col horizontal word i).isSome = true ↔
        ∀ j (hj : j < word.length),
          (grid (cellR row horizontal (i + j)) (cellC col horizontal (i + j)) =
              some (word.get ⟨j, hj⟩) ∨
            (grid (cellR row horizontal (i + j)) (cellC col horizontal (i + j)) = none ∧
              PerpBlocked grid size horizontal (cellR row horizontal (i + j))
                (cellC col horizontal (i + j))))
  | [], i => by simp [cellsOk]
  | ch :: rest, i => by
    have ih := cellsOk_isSome_iff grid size row col horizontal rest (i + 1)
    have hshift : ∀ j, i + 1 + j = i + (j + 1) := by omega
    rcases hgc : grid (cellR row horizontal i) (cellC col horizontal i) with _ | ex
    · by_cases hp : perpOk grid size horizontal (cellR row horizontal i)
          (cellC col horizontal i) = true
      · rw [show (cellsOk grid size row col horizontal (ch :: rest) i).isSome =
            (cellsOk grid size row col horizontal rest (i + 1)).isSome by
              simp [cellsOk, hgc, hp]]
        rw [ih]
        constructor
        · intro h j hj
          match j with
          | 0 =>
            rw [Nat.add_zero]
            exact Or.inr ⟨hgc, (perpOk_iff _ _ _ _ _).mp hp⟩
          | j' + 1 =>
            have hj' : j' < rest.length := by
              simp only [List.length_cons] at hj; omega
            have := h j' hj'
            rw [hshift j'] at this
            exact this
        · intro h j hj
          have := h (j + 1) (by simp only [List.length_cons]; omega)
          rw [hshift j]
          exact this
      · rw [show (cellsOk grid size row col horizontal (ch :: rest) i).isSome = false by
            simp [cellsOk, hgc, hp]]
        simp only [Bool.false_eq_true, false_iff, not_forall]
        refine ⟨0, by simp, ?_⟩
        rw [Nat.add_zero, hgc]
        push_neg
        constructor
        · simp
        · intro _ hperp
          exact hp ((perpOk_iff _ _ _ _ _).mpr hperp)
    · by_cases he : ex = ch
      · subst he
        rw [show (cellsOk grid size row col horizontal (ex :: rest) i).isSome =
            (cellsOk grid size row col horizontal rest (i + 1)).isSome by
              simp only [cellsOk, hgc, if_pos rfl]
              rcases cellsOk grid size row col horizontal rest (i + 1) with _ | b <;> simp]
        rw [ih]
        constructor
        · intro h j hj
          match j with
          | 0 =>
            rw [Nat.add_zero]
            exact Or.inl (by rw [hgc]; rfl)
          | j' + 1 =>
            have hj' : j' < rest.length := by
              simp only [List.length_cons] at hj; omega
            have := h j' hj'
            rw [hshift j'] at this
            exact this
        · intro h j hj
          have := h (j + 1) (by simp only [List.length_cons]; omega)
          rw [hshift j]
          exact this
      · rw [show (cellsOk grid size row col horizontal (ch :: rest) i).isSome = false by
            simp [cellsOk, hgc, he]]
        simp only [Bool.false_eq_true, false_iff, not_forall]
        refine ⟨0, by simp, ?_⟩
        rw [Nat.add_zero, hgc]
        push_neg
        refine ⟨by simpa using he, by rintro h -; cases h⟩

theorem cellsOk_flag (grid : Grid) (size : Nat) (row col : Nat) (horizontal : Bool) :
    ∀ (word : List Nat) (i : Nat) (b : Bool),
      cellsOk grid size row col horizontal word i = some b →
      (b = true ↔ ∃ j, j < word.length ∧
        (grid (cellR row horizontal (i + j)) (cellC col horizontal (i + j))).isSome = true)
  | [], i, b => by
    intro h
    simp [cellsOk] at h
    simp [← h]
  | ch :: rest, i, b => by
    intro h
    have hshift : ∀ j, i + 1 + j = i + (j + 1) := by omega
    rcases hgc : grid (cellR row horizontal i) (cellC col horizontal i) with _ | ex
    · by_cases hp : perpOk grid size horizontal (cellR row horizontal i)
          (cellC col horizontal i) = true
      · have h' : cellsOk grid size row col horizontal rest (i + 1) = some b := by
          rw [show cellsOk grid size row col horizontal (ch :: rest) i =
              cellsOk grid size row col horizontal rest (i + 1) by
                simp [cellsOk, hgc, hp]] at h
          exact h
        have ih := cellsOk_flag grid size row col horizontal rest (i + 1) b h'
        constructor
        · intro hb
          obtain ⟨j, hj, hs⟩ := ih.mp hb
          exact ⟨j + 1, by simp only [List.length_cons]; omega,
            by rwa [← hshift j]⟩
        · rintro ⟨j, hj, hs⟩
          match j with
          | 0 => rw [Nat.add_zero, hgc] at hs; simp at hs
          | j' + 1 =>
            refine ih.mpr ⟨j', by simp only [List.length_cons] at hj; omega, ?_⟩
            rwa [hshift j']
      · rw [show cellsOk grid size row col horizontal (ch :: rest) i = none by
            simp [cellsOk, hgc, hp]] at h
        cases h
    · by_cases he : ex = ch
      · subst he
        have hmatch : cellsOk grid size row col horizontal (ex :: rest) i =
            match cellsOk grid size row col horizontal rest (i + 1) with
            | none => none
            | some _ => some true := by
          simp [cellsOk, hgc]
        rw [hmatch] at h
        rcases hr : cellsOk grid size row col horizontal rest (i + 1) with _ | b' <;>
          rw [hr] at h
        · cases h
        · have hb : b = true := by cases h; rfl
          subst hb
          simp only [true_iff]
          exact ⟨0, by simp, by rw [Nat.add_zero, hgc]; rfl⟩
      · rw [show cellsOk grid size row col horizontal (ch :: rest) i = none by
            simp [cellsOk, hgc, he]] at h
        cases h

theorem endsOk_iff (grid : Grid) (size : Nat) (word : List Nat) (row col : Nat)
    (horizontal : Bool) (hr : row < size) (hc : col < size) :
    endsOk grid size word row col horizontal = true ↔
      RunInBounds size word row col horizontal ∧
        BeforeBlocked grid row col horizontal ∧
        AfterBlocked grid size word row col horizontal := by
  cases horizontal
  · have hE : endsOk grid size word row col false =
        (if size < row + word.length then false
         else if decide (0 < row) && (grid (row-1) col).isSome then false
         else if decide (row + word.length < size) &&
             (grid (row+word.length) col).isSome then false
         else true) := rfl
    rw [hE]
    constructor
    · intro h
      by_cases h1 : size < row + word.length
      · rw [if_pos h1] at h; cases h
      · rw [if_neg h1] at h
        by_cases h2 : (decide (0 < row) && (grid (row-1) col).isSome) = true
        · rw [if_pos h2] at h; cases h
        · rw [if_neg h2] at h
          by_cases h3 : (decide (row + word.length < size) &&
              (grid (row+word.length) col).isSome) = true
          · rw [if_pos h3] at h; cases h
          · refine ⟨?_, ?_, ?_⟩
            · intro i hi
              show row + i < size ∧ col < size
              exact ⟨by omega, hc⟩
            · show 0 < row → grid (row-1) col = none
              intro hrow
              rcases hg : grid (row-1) col with _ | v
              · rfl
              · exact absurd (by rw [hg]; simp [hrow]) h2
            · show row + word.length < size → grid (row+word.length) col = none
              intro hlt
              rcases hg : grid (row+word.length) col with _ | v
              · rfl
              · exact absurd (by rw [hg]; simp [hlt]) h3
    · rintro ⟨h1, h2, h3⟩
      have h2' : 0 < row → grid (row-1) col = none := h2
      have h3' : row + word.length < size → grid (row+word.length) col = none := h3
      have hb1 : ¬ size < row + word.length := by
        rcases Nat.eq_zero_or_pos word.length with h0 | h0
        · omega
        · have := (h1 (word.length - 1) (by omega)).1
          have hcr : cellR row false (word.length - 1) = row + (word.length - 1) := rfl
          rw [hcr] at this
          omega
      rw [if_neg hb1]
      have hb2 : ¬ ((decide (0 < row) && (grid (row-1) col).isSome) = true) := by
        intro hx
        have hax : 0 < row ∧ (grid (row-1) col).isSome = true := by simpa using hx
        rw [h2' hax.1] at hax
        exact absurd hax.2 (by simp)
      rw [if_neg hb2]
      have hb3 : ¬ ((decide (row + word.length < size) &&
          (grid (row+word.length) col).isSome) = true) := by
        intro hx
        have hax : row + word.length < size ∧
            (grid (row+word.length) col).isSome = true := by simpa using hx
        rw [h3' hax.1] at hax
        exact absurd hax.2 (by simp)
      rw [if_neg hb3]
  · have hE : endsOk grid size word row col true =
        (if size < col + word.length then false
         else if decide (0 < col) && (grid row (col-1)).isSome then false
         else if decide (col + word.length < size) &&
             (grid row (col+word.length)).isSome then false
         else true) := rfl
    rw [hE]
    constructor
    · intro h
      by_cases h1 : size < col + word.length
      · rw [if_pos h1] at h; cases h
      · rw [if_neg h1] at h
        by_cases h2 : (decide (0 < col) && (grid row (col-1)).isSome) = true
        · rw [if_pos h2] at h; cases h
        · rw [if_neg h2] at h
          by_cases h3 : (decide (col + word.length < size) &&
              (grid row (col+word.length)).isSome) = true
          · rw [if_pos h3] at h; cases h
          · refine ⟨?_, ?_, ?_⟩
            · intro i hi
              show row < size ∧ col + i < size
              exact ⟨hr, by omega⟩
            · show 0 < col → grid row (col-1) = none
              intro hcol
              rcases hg : grid row (col-1) with _ | v
              · rfl
              · exact absurd (by rw [hg]; simp [hcol]) h2
            · show col + word.length < size → grid row (col+word.length) = none
              intro hlt
              rcases hg : grid row (col+word.length) with _ | v
              · rfl
              · exact absurd (by rw [hg]; simp [hlt]) h3
    · rintro ⟨h1, h2, h3⟩
      have h2' : 0 < col → grid row (col-1) = none := h2
      have h3' : col + word.length < size → grid row (col+word.length) = none := h3
      have hb1 : ¬ size < col + word.length := by
        rcases Nat.eq_zero_or_pos word.length with h0 | h0
        · omega
        · have := (h1 (word.length - 1) (by omega)).2
          have hcc : cellC col true (word.length - 1) = col + (word.length - 1) := rfl
          rw [hcc] at this
          omega
      rw [if_neg hb1]
      have hb2 : ¬ ((decide (0 < col) && (grid row (col-1)).isSome) = true) := by
        intro hx
        have hax : 0 < col ∧ (grid row (col-1)).isSome = true := by simpa using hx
        rw [h2' hax.1] at hax
        exact absurd hax.2 (by simp)
      rw [if_neg hb2]
      have hb3 : ¬ ((decide (col + word.length < size) &&
          (grid row (col+word.length)).isSome) = true) := by
        intro hx
        have hax : col + word.length < size ∧
            (grid row (col+word.length)).isSome = true := by simpa using hx
        rw [h3' hax.1] at hax
        exact absurd hax.2 (by simp)
      rw [if_neg hb3]

/-- Characterization of `canPlaceWord` by the spec's `can_place` contract, for
in-bounds start positions (shared helper behind claim C2). -/
theorem canPlaceWord_char (grid : Grid) (size : Nat) (word : List Nat) (row col : Nat)
    (horizontal requireIntersection : Bool) (hr : row < size) (hc : col < size) :
    canPlaceWord grid size word row col horizontal requireIntersection = true ↔
      CanPlaceSpec grid size word row col horizontal requireIntersection := by
  unfold canPlaceWord CanPlaceSpec
  constructor
  · intro h
    by_cases hb : endsOk grid size word row col horizontal = true
    · rw [if_pos hb] at h
      obtain ⟨hrun, hbef, haft⟩ := (endsOk_iff grid size word row col horizontal hr hc).mp hb
      rcases hco : cellsOk grid size row col horizontal word 0 with _ | hasInt <;>
        rw [hco] at h
      · cases h
      · have hcells := (cellsOk_isSome_iff grid size row col horizontal word 0).mp
          (by rw [hco]; rfl)
        refine ⟨hrun, hbef, haft, ?_, ?_⟩
        · intro j hj
          have := hcells j hj
          rwa [Nat.zero_add] at this
        · intro hri
          subst hri
          have hflag := cellsOk_flag grid size row col horizontal word 0 hasInt hco
          have hint : hasInt = true := by
            by_contra hfalse
            have : hasInt = false := by
              cases hasInt
              · rfl
              · exact absurd rfl hfalse
            rw [this] at h
            simp at h
          obtain ⟨j, hj, hs⟩ := hflag.mp hint
          exact ⟨j, hj, by rwa [Nat.zero_add] at hs⟩
    · rw [if_neg hb] at h
      cases h
  · rintro ⟨hrun, hbef, haft, hcells, hint⟩
    have hb : endsOk grid size word row col horizontal = true :=
      (endsOk_iff grid size word row col horizontal hr hc).mpr ⟨hrun, hbef, haft⟩
    rw [if_pos hb]
    have hsome : (cellsOk grid size row col horizontal word 0).isSome = true := by
      rw [cellsOk_isSome_iff]
      intro j hj
      have := hcells j hj
      rwa [Nat.zero_add]
    rcases hco : cellsOk grid size row col horizontal word 0 with _ | hasInt
    · rw [hco] at hsome; cases hsome
    · cases requireIntersection
      · simp
      · have hflag := cellsOk_flag grid size row col horizontal word 0 hasInt hco
        obtain ⟨j, hj, hs⟩ := hint rfl
        have : hasInt = true := hflag.mpr ⟨j, hj, by rwa [Nat.zero_add]⟩
        rw [this]
        simp

/-! ## Stable sort

`Array.prototype.sort` is stable (ES2019).  Both sorts in the source use
total-preorder comparators, and the stable sorted permutation with respect to
a total preorder is unique, so a stable insertion sort is a faithful model
(and, unlike `List.mergeSort`, it reduces in the kernel). -/

def insertSorted {α : Type} (le : α → α → Bool) (x : α) : List α → List α
  | [] => [x]
  | y :: ys => if le x y then x :: y :: ys else y :: insertSorted le x ys

def stableSort {α : Type} (le : α → α → Bool) : List α → List α
  | [] => []
  | x :: xs => insertSorted le x (stableSort le xs)

theorem insertSorted_perm {α : Type} (le : α → α → Bool) (x : α) (l : List α) :
    (insertSorted le x l).Perm (x :: l) := by
  induction l with
  | nil => exact List.Perm.refl _
  | cons y ys ih =>
    unfold insertSorted
    by_cases h : le x y = true
    · rw [if_pos h]
    · rw [if_neg h]
      exact ((ih.cons y).trans (List.Perm.swap x y ys))

theorem stableSort_perm {α : Type} (le : α → α → Bool) (l : List α) :
    (stableSort le l).Perm l := by
  induction l with
  | nil => exact List.Perm.refl _
  | cons x xs ih =>
    exact (insertSorted_perm le x (stableSort le xs)).trans (ih.cons x)

theorem mem_stableSort {α : Type} (le : α → α → Bool) (l : List α) (x : α) :
    x ∈ stableSort le l ↔ x ∈ l :=
  (stableSort_perm le l).mem_iff

/-! ## `countIntersections` / `findPlacements` / `placeWord`
(part_005 lines 124-217) -/

/-- `WordClue` from `claudeService`; the optional article metadata plays no
role in any claim and is omitted. -/
structure WordClue where
  answer : List Nat
  clue : String
deriving DecidableEq

structure Placement where
  row : Nat
  col : Nat
  horizontal : Bool
  intersections : Nat
deriving DecidableEq

/-- `countIntersections` (source lines 180-199). -/
def countIntersections (grid : Grid) (word : List Nat) (row col : Nat)
    (horizontal : Bool) : Nat :=
  ((List.range word.length).filter
    (fun i => (grid (cellR row horizontal i) (cellC col horizontal i)).isSome)).length

/-- The body of the intersection-scan of `findPlacements` at one grid cell
(source lines 136-156). -/
def findPlacementsAtCell (grid : Grid) (size : Nat) (word : List Nat) (ri : Bool)
    (r c : Nat) : List Placement :=
  match grid r c with
  | none => []
  | some existingChar =>
    (List.range word.length).flatMap (fun i =>
      if word.get? i = some existingChar then
        (if i ≤ c ∧ canPlaceWord grid size word r (c - i) true ri = true then
          [⟨r, c - i, true, countIntersections grid word r (c - i) true⟩]
         else []) ++
        (if i ≤ r ∧ canPlaceWord grid size word (r - i) c false ri = true then
          [⟨r - i, c, false, countIntersections grid word (r - i) c false⟩]
         else [])
      else [])

/-- `findPlacements` (source lines 124-175): intersection scan, fallback full
scan when empty and no intersection required, then stable sort by
intersection count descending. -/
def findPlacements (grid : Grid) (size : Nat) (word : List Nat) (ri : Bool) :
    List Placement :=
  let primary := (List.range size).flatMap (fun r =>
    (List.range size).flatMap (fun c => findPlacementsAtCell grid size word ri r c))
  let placements :=
    if primary.length = 0 ∧ ri = false then
      (List.range size).flatMap (fun r => (List.range size).flatMap (fun c =>
        (if canPlaceWord grid size word r c true false = true then
          [⟨r, c, true, 0⟩] else []) ++
        (if canPlaceWord grid size word r c false false = true then
          [⟨r, c, false, 0⟩] else [])))
    else primary
  stableSort (fun a b => decide (b.intersections ≤ a.intersections)) placements

def setCell (grid : Grid) (r c : Nat) (v : Nat) : Grid :=
  fun r' c' => if r' = r ∧ c' = c then some v else grid r' c'

def placeRun (row col : Nat) (horizontal : Bool) : Grid → List Nat → Nat → Grid
  | g, [], _ => g
  | g, ch :: rest, i =>
    placeRun row col horizontal
      (setCell g (cellR row horizontal i) (cellC col horizontal i) ch) rest (i+1)

/-- `placeWord` (source lines 204-217). -/
def placeWord (grid : Grid) (word : List Nat) (row col : Nat)
    (horizontal : Bool) : Grid :=
  placeRun row col horizontal grid word 0

/-! ## Synthesizer (`generateCrossword`, part_005 lines 237-394) -/

/-- A placed word as accumulated by the attempt loop
(`{word, row, col, horizontal}`). -/
structure PRaw where
  word : WordClue
  row : Nat
  col : Nat
  horizontal : Bool
deriving DecidableEq

/-- Attempt state: the letter grid and the `placed` array. -/
abbrev St : Type := Grid × List PRaw

/-- Seed step (source lines 284-294): place the first shuffled word
horizontally, centered. -/
def seedSt (size : Nat) (shuffled : List WordClue) : St :=
  match shuffled with
  | [] => (emptyGrid, [])
  | first :: _ =>
    let startCol := (size - first.answer.length) / 2
    let startRow := size / 2
    if canPlaceWord emptyGrid size first.answer startRow startCol true false = true then
      (placeWord emptyGrid first.answer startRow startCol true,
        [⟨first, startRow, startCol, true⟩])
    else (emptyGrid, [])

/-- Main pass step (source lines 297-306): best intersecting placement. -/
def mainStep (size : Nat) (st : St) (w : WordClue) : St :=
  match findPlacements st.1 size w.answer true with
  | [] => st
  | p :: _ =>
    (placeWord st.1 w.answer p.row p.col p.horizontal,
      st.2 ++ [⟨w, p.row, p.col, p.horizontal⟩])

/-- The edge filter of the edge-filling pass (source lines 315-320). -/
def isEdgePlacement (size : Nat) (wordLen : Nat) (p : Placement) : Bool :=
  decide (p.row = 0) || decide (p.row = size - 1) ||
  decide (p.col = 0) || decide (p.col = size - 1) ||
  (p.horizontal && decide (p.col + wordLen = size)) ||
  (!p.horizontal && decide (p.row + wordLen = size))

/-- Edge-filling step (source lines 313-327). -/
def edgeStep (size : Nat) (st : St) (w : WordClue) : St :=
  match (findPlacements st.1 size w.answer false).filter
      (isEdgePlacement size w.answer.length) with
  | [] => st
  | p :: _ =>
    (placeWord st.1 w.answer p.row p.col p.horizontal,
      st.2 ++ [⟨w, p.row, p.col, p.horizontal⟩])

/-- One attempt (source lines 276-328): seed, main pass, edge-filling pass. -/
def runAttempt (size : Nat) (shuffled : List WordClue) : St :=
  let st2 := (shuffled.drop 1).foldl (mainStep size) (seedSt size shuffled)
  let shortWords :=
    (shuffled.filter (fun w => !(st2.2.any (fun p => p.word.answer == w.answer)))).filter
      (fun w => decide (w.answer.length ≤ 3))
  shortWords.foldl (edgeStep size) st2

/-- `calculateDensity`'s numerator: the number of letter cells
(source lines 222-232; see the header note on modelling the float). -/
def countFilled (grid : Grid) (size : Nat) : Nat :=
  ((List.range size).map
    (fun r => ((List.range size).filter (fun c => (grid r c).isSome)).length)).sum

structure AttemptOut where
  grid : Grid
  placed : List PRaw
  filled : Nat

def attemptResult (size : Nat) (shuffled : List WordClue) : AttemptOut :=
  let st := runAttempt size shuffled
  ⟨st.1, st.2, countFilled st.1 size⟩

/-- `minWords` (source line 266). -/
def minWordsFor (size : Nat) : Nat :=
  if size ≤ 7 then 6 else if size ≤ 10 then 18 else if size ≤ 12 then 25 else 35

/-- The best-result update of source line 331 (non-null best):
`density > best.density || placed.length > best.placed.length`.  Densities
compare over the same `size²`, so `filled` compares exactly. -/
def updateBest (best res : AttemptOut) : AttemptOut :=
  if best.filled < res.filled || best.placed.length < res.placed.length then res
  else best

/-- The early-exit test of source line 336:
`density >= 80 && placed.length >= minWords`. -/
def earlyExit (size : Nat) (res : AttemptOut) : Bool :=
  decide (80 * (size * size) ≤ 100 * res.filled) &&
    decide (minWordsFor size ≤ res.placed.length)

/-- The multi-attempt loop (source lines 276-339), counting attempts from `i`
with `fuel` attempts remaining. -/
def attemptsFrom (rng : Nat → List WordClue → List WordClue)
    (uniqueWords : List WordClue) (size : Nat) :
    Nat → Nat → Option AttemptOut → Option AttemptOut
  | _, 0, best => best
  | i, fuel+1, best =>
    let res := attemptResult size (rng i uniqueWords)
    let best' := match best with
      | none => res
      | some b => updateBest b res
    if earlyExit size res then some best'
    else attemptsFrom rng uniqueWords size (i+1) fuel (some best')

def maxAttempts : Nat := 100

/-- The `3 ≤ length ≤ 5` score of the pre-sort (source lines 258-264). -/
def lenScore (w : WordClue) : Nat :=
  if 3 ≤ w.answer.length ∧ w.answer.length ≤ 5 then 0 else 1

/-- Comparator of the pre-sort: ascending on `(lenScore, length)`. -/
def wordLE (a b : WordClue) : Bool :=
  decide (lenScore a < lenScore b) ||
    (decide (lenScore a = lenScore b) && decide (a.answer.length ≤ b.answer.length))

def dedupeAux : List WordClue → List (List Nat) → List WordClue
  | [], _ => []
  | w :: rest, seen =>
    if w.answer ∈ seen then dedupeAux rest seen
    else w :: dedupeAux rest (w.answer :: seen)

/-- Duplicate removal by answer, first occurrence wins (source lines 250-255). -/
def dedupeByAnswer (ws : List WordClue) : List WordClue :=
  dedupeAux ws []

/-- Pre-processing (source lines 239-264): normalize, filter by length
`2..size`, deduplicate, stable-sort preferring lengths 3-5 then shorter. -/
def preprocess (words : List WordClue) (size : Nat) : List WordClue :=
  let normalizedWords :=
    (words.map (fun w => WordClue.mk (normalizeJapanese w.answer) w.clue)).filter
      (fun w => decide (2 ≤ w.answer.length) && decide (w.answer.length ≤ size))
  stableSort wordLE (dedupeByAnswer normalizedWords)

/-- The final best of the attempt loop. -/
def bestOf (words : List WordClue) (size : Nat)
    (rng : Nat → List WordClue → List WordClue) : Option AttemptOut :=
  attemptsFrom rng (preprocess words size) size 0 maxAttempts none

/-! ## Numbering and export (source lines 345-394) -/

/-- Number-worthiness of a cell (source lines 352-357): it is a letter and
starts an across or a down word. -/
def isStartCell (g : Grid) (size : Nat) (r c : Nat) : Bool :=
  (g r c).isSome &&
    (((decide (c = 0) || (g r (c-1)).isNone) &&
        (decide (c + 1 < size) && (g r (c+1)).isSome)) ||
     ((decide (r = 0) || (g (r-1) c).isNone) &&
        (decide (r + 1 < size) && (g (r+1) c).isSome)))

/-- Reading order: row-major, top-to-bottom, left-to-right. -/
def readingOrder (size : Nat) : List (Nat × Nat) :=
  (List.range size).flatMap (fun r => (List.range size).map (fun c => (r, c)))

/-- The numbering fold (source lines 346-362): assign `next`, `next+1`, … to
the start cells in the given order. -/
def assignNumbersAux (g : Grid) (size : Nat) :
    List (Nat × Nat) → Nat → List ((Nat × Nat) × Nat)
  | [], _ => []
  | rc :: rest, next =>
    if isStartCell g size rc.1 rc.2 then
      (rc, next) :: assignNumbersAux g size rest (next+1)
    else assignNumbersAux g size rest next

def numberAssignments (g : Grid) (size : Nat) : List ((Nat × Nat) × Nat) :=
  assignNumbersAux g size (readingOrder size) 1

/-- `numberGrid[r][c]` of the source: 0 when the cell got no number. -/
def numberAt (g : Grid) (size r c : Nat) : Nat :=
  ((numberAssignments g size).lookup (r, c)).getD 0

inductive Orientation where
  | across
  | down
deriving DecidableEq

def Orientation.str : Orientation → String
  | .across => "across"
  | .down => "down"

structure PlacedWord where
  answer : List Nat
  clue : String
  startRow : Nat
  startCol : Nat
  position : Nat
  orientation : Orientation
  length : Nat
deriving DecidableEq

structure GridCell where
  letter : Option Nat
  number : Option Nat
  isBlack : Bool
deriving DecidableEq

structure CrosswordResult where
  width : Nat
  height : Nat
  letters : Grid
  cells : Nat → Nat → GridCell
  words : List PlacedWord
  filled : Nat

/-- Final `PlacedWord` from an accumulated placement (source lines 373-383). -/
def toPlacedWord (g : Grid) (size : Nat) (p : PRaw) : PlacedWord :=
  ⟨p.word.answer, p.word.clue, p.row, p.col, numberAt g size p.row p.col,
    if p.horizontal then .across else .down, p.word.answer.length⟩

/-- Final result assembly (source lines 346-393). -/
def buildResult (size : Nat) (b : AttemptOut) : CrosswordResult :=
  { width := size
    height := size
    letters := b.grid
    cells := fun r c =>
      ⟨b.grid r c,
        (if numberAt b.grid size r c = 0 then none else some (numberAt b.grid size r c)),
        (b.grid r c).isNone⟩
    words := b.placed.map (toPlacedWord b.grid size)
    filled := b.filled }

/-- `generateCrossword` (source lines 237-394): `none` models the
`Failed to generate crossword` (InsufficientWords) throw. -/
def generateCrossword (words : List WordClue) (size : Nat)
    (rng : Nat → List WordClue → List WordClue) : Option CrosswordResult :=
  match bestOf words size rng with
  | none => none
  | some b => if b.placed.length = 0 then none else some (buildResult size b)

/-! ## Reading a grid after `placeWord` -/

theorem cell_inj (row col : Nat) (h : Bool) (a b : Nat) (hab : a ≠ b) :
    ¬(cellR row h a = cellR row h b ∧ cellC col h a = cellC col h b) := by
  cases h <;> simp [cellR, cellC] <;> omega

theorem placeRun_miss (row col : Nat) (h : Bool) :
    ∀ (word : List Nat) (i : Nat) (g : Grid) (r c : Nat),
      (∀ j, j < word.length → ¬(cellR row h (i+j) = r ∧ cellC col h (i+j) = c)) →
      placeRun row col h g word i r c = g r c
  | [], _, _, _, _ => fun _ => rfl
  | ch :: rest, i, g, r, c => by
    intro hmiss
    show placeRun row col h (setCell g (cellR row h i) (cellC col h i) ch)
        rest (i+1) r c = g r c
    rw [placeRun_miss row col h rest (i+1) _ r c (fun j hj => by
      have := hmiss (j+1) (by simp only [List.length_cons]; omega)
      rwa [show i + (j+1) = i + 1 + j by omega] at this)]
    show (if r = cellR row h i ∧ c = cellC col h i then some ch else g r c) = g r c
    rw [if_neg]
    rintro ⟨h1, h2⟩
    exact hmiss 0 (by simp) (by rw [Nat.add_zero]; exact ⟨h1.symm, h2.symm⟩)

theorem placeRun_hit (row col : Nat) (h : Bool) :
    ∀ (word : List Nat) (i : Nat) (g : Grid) (j : Nat) (hj : j < word.length),
      placeRun row col h g word i (cellR row h (i+j)) (cellC col h (i+j)) =
        some (word.get ⟨j, hj⟩)
  | [], _, _, j, hj => absurd hj (by simp)
  | ch :: rest, i, g, 0, _ => by
    show placeRun row col h (setCell g (cellR row h i) (cellC col h i) ch) rest (i+1)
        (cellR row h (i+0)) (cellC col h (i+0)) = some ch
    rw [Nat.add_zero]
    rw [placeRun_miss row col h rest (i+1) _ _ _ (fun j' hj' => by
      exact cell_inj row col h (i+1+j') i (by omega))]
    show (if cellR row h i = cellR row h i ∧ cellC col h i = cellC col h i
        then some ch else g (cellR row h i) (cellC col h i)) = some ch
    rw [if_pos ⟨rfl, rfl⟩]
  | ch :: rest, i, g, j'+1, hj => by
    show placeRun row col h (setCell g (cellR row h i) (cellC col h i) ch) rest (i+1)
        (cellR row h (i+(j'+1))) (cellC col h (i+(j'+1))) = _
    rw [show i + (j'+1) = (i+1) + j' by omega]
    exact placeRun_hit row col h rest (i+1) _ j'
      (by simp only [List.length_cons] at hj; omega)

theorem placeWord_hit (g : Grid) (word : List Nat) (row col : Nat) (h : Bool)
    (j : Nat) (hj : j < word.length) :
    placeWord g word row col h (cellR row h j) (cellC col h j) =
      some (word.get ⟨j, hj⟩) := by
  have := placeRun_hit row col h word 0 g j hj
  rwa [Nat.zero_add] at this

theorem placeWord_miss (g : Grid) (word : List Nat) (row col : Nat) (h : Bool)
    (r c : Nat)
    (hm : ∀ j, j < word.length → ¬(cellR row h j = r ∧ cellC col h j = c)) :
    placeWord g word row col h r c = g r c :=
  placeRun_miss row col h word 0 g r c (fun j hj => by
    rw [Nat.zero_add]; exact hm j hj)

/-- The first four components of the `can_place` contract: everything
`canPlaceWord = true` guarantees independently of `requireIntersection`. -/
def PlaceOk (grid : Grid) (size : Nat) (word : List Nat) (row col : Nat)
    (horizontal : Bool) : Prop :=
  RunInBounds size word row col horizontal ∧
  BeforeBlocked grid row col horizontal ∧
  AfterBlocked grid size word row col horizontal ∧
  ∀ j (hj : j < word.length), CellCond grid size word row col horizontal j hj

theorem canPlaceWord_placeOk (grid : Grid) (size : Nat) (word : List Nat)
    (row col : Nat) (horizontal ri : Bool)
    (hcan : canPlaceWord grid size word row col horizontal ri = true)
    (hr : row < size) (hc : col < size) :
    PlaceOk grid size word row col horizontal := by
  obtain ⟨h1, h2, h3, h4, _⟩ :=
    (canPlaceWord_char grid size word row col horizontal ri hr hc).mp hcan
  exact ⟨h1, h2, h3, h4⟩

/-! ## The structural invariant of the synthesis loop

Every word is written on the grid at its cells, every letter cell is covered
by a placed word, and every orthogonally adjacent pair of letter cells lies
consecutively on a placed word of that direction. -/

def pcellR (p : PRaw) (i : Nat) : Nat := cellR p.row p.horizontal i

def pcellC (p : PRaw) (i : Nat) : Nat := cellC p.col p.horizontal i

structure Inv (size : Nat) (g : Grid) (ps : List PRaw) : Prop where
  content : ∀ p ∈ ps, ∀ i, (hi : i < p.word.answer.length) →
    g (pcellR p i) (pcellC p i) = some (p.word.answer.get ⟨i, hi⟩)
  bounds : ∀ p ∈ ps, ∀ i, i < p.word.answer.length →
    pcellR p i < size ∧ pcellC p i < size
  coverage : ∀ r c, (g r c).isSome = true →
    ∃ p, p ∈ ps ∧ ∃ i, i < p.word.answer.length ∧ pcellR p i = r ∧ pcellC p i = c
  adjH : ∀ r c, (g r c).isSome = true → (g r (c+1)).isSome = true →
    ∃ p, p ∈ ps ∧ p.horizontal = true ∧ p.row = r ∧
      ∃ i, i + 1 < p.word.answer.length ∧ p.col + i = c
  adjV : ∀ r c, (g r c).isSome = true → (g (r+1) c).isSome = true →
    ∃ p, p ∈ ps ∧ p.horizontal = false ∧ p.col = c ∧
      ∃ i, i + 1 < p.word.answer.length ∧ p.row + i = r

theorem inv_empty (size : Nat) : Inv size emptyGrid [] where
  content := by intro p hp; simp at hp
  bounds := by intro p hp; simp at hp
  coverage := by intro r c hs; simp [emptyGrid] at hs
  adjH := by intro r c hs; simp [emptyGrid] at hs
  adjV := by intro r c hs; simp [emptyGrid] at hs

theorem Inv.place {size : Nat} {g : Grid} {ps : List PRaw} (hInv : Inv size g ps)
    (w : WordClue) (row col : Nat) (h : Bool)
    (hok : PlaceOk g size w.answer row col h) :
    Inv size (placeWord g w.answer row col h) (ps ++ [⟨w, row, col, h⟩]) := by
  obtain ⟨hRIB, hBB, hAB, hCC⟩ := hok
  have hit : ∀ j (hj : j < w.answer.length),
      placeWord g w.answer row col h (cellR row h j) (cellC col h j) =
        some (w.answer.get ⟨j, hj⟩) := placeWord_hit g w.answer row col h
  have miss : ∀ r c, ¬(∃ j, j < w.answer.length ∧ cellR row h j = r ∧ cellC col h j = c) →
      placeWord g w.answer row col h r c = g r c := by
    intro r c hm
    exact placeWord_miss g w.answer row col h r c
      (fun j hj hand => hm ⟨j, hj, hand.1, hand.2⟩)
  -- a letter cell of the old grid is in bounds
  have oldBound : ∀ r c, (g r c).isSome = true → r < size ∧ c < size := by
    intro r c hs
    obtain ⟨p, hp, i, hi, h1, h2⟩ := hInv.coverage r c hs
    have := hInv.bounds p hp i hi
    omega
  constructor
  -- content
  · intro p hp i hi
    rcases List.mem_append.mp hp with hp | hp
    · by_cases hon : ∃ j, j < w.answer.length ∧
          cellR row h j = pcellR p i ∧ cellC col h j = pcellC p i
      · obtain ⟨j, hj, hjr, hjc⟩ := hon
        have hold := hInv.content p hp i hi
        have hcc := hCC j hj
        unfold CellCond at hcc
        rw [← hjr, ← hjc] at hold
        rcases hcc with hcc | ⟨hcc, _⟩
        · have hnew := hit j hj
          rw [hjr, hjc] at hnew
          rw [hnew]
          rw [hold] at hcc
          exact hcc.symm
        · rw [hold] at hcc
          cases hcc
      · rw [miss _ _ hon]
        exact hInv.content p hp i hi
    · have hp' : p = ⟨w, row, col, h⟩ := by simpa using hp
      subst hp'
      exact hit i hi
  -- bounds
  · intro p hp i hi
    rcases List.mem_append.mp hp with hp | hp
    · exact hInv.bounds p hp i hi
    · have hp' : p = ⟨w, row, col, h⟩ := by simpa using hp
      subst hp'
      exact hRIB i hi
  -- coverage
  · intro r c hs
    by_cases hon : ∃ j, j < w.answer.length ∧ cellR row h j = r ∧ cellC col h j = c
    · obtain ⟨j, hj, h1, h2⟩ := hon
      exact ⟨⟨w, row, col, h⟩, List.mem_append.mpr (Or.inr (by simp)), j, hj, h1, h2⟩
    · rw [miss r c hon] at hs
      obtain ⟨p, hp, i, hi, h1, h2⟩ := hInv.coverage r c hs
      exact ⟨p, List.mem_append.mpr (Or.inl hp), i, hi, h1, h2⟩
  -- adjacency, horizontal pairs
  · intro r c hs1 hs2
    by_cases hon1 : ∃ j, j < w.answer.length ∧ cellR row h j = r ∧ cellC col h j = c
    · obtain ⟨j1, hj1, hr1, hc1⟩ := hon1
      by_cases hon2 : ∃ j, j < w.answer.length ∧ cellR row h j = r ∧ cellC col h j = c + 1
      · -- both cells on the new run
        obtain ⟨j2, hj2, hr2, hc2⟩ := hon2
        cases h
        · -- vertical run cannot contain a horizontal pair
          simp [cellC] at hc1 hc2
          omega
        · simp [cellR] at hr1
          simp [cellC] at hc1 hc2
          refine ⟨⟨w, row, col, true⟩, List.mem_append.mpr (Or.inr (by simp)),
            rfl, hr1, j1, by show j1 + 1 < w.answer.length; omega, hc1⟩
      · -- right cell off the run
        have hs2' : (g r (c+1)).isSome = true := by rw [← miss r (c+1) hon2]; exact hs2
        cases h
        · -- new word vertical: the run cell at (r, c)
          simp [cellR] at hr1
          simp [cellC] at hc1
          have hcc := hCC j1 hj1
          unfold CellCond at hcc
          rcases hcc with hcc | ⟨hnone, hperp⟩
          · -- intersection cell: the pair existed before
            have hs1' : (g r c).isSome = true := by
              rw [show r = cellR row false j1 by simp [cellR]; omega,
                show c = cellC col false j1 by simp [cellC]; omega, hcc]
              rfl
            obtain ⟨p, hp, hh, hrow, i, hilen, hieq⟩ := hInv.adjH r c hs1' hs2'
            exact ⟨p, List.mem_append.mpr (Or.inl hp), hh, hrow, i, hilen, hieq⟩
          · -- fresh cell: its right neighbour was checked blocked
            exfalso
            have hsz : c + 1 < size := (oldBound r (c+1) hs2').2
            have hperp' : (0 < cellC col false j1 →
                  g (cellR row false j1) (cellC col false j1 - 1) = none) ∧
                (cellC col false j1 + 1 < size →
                  g (cellR row false j1) (cellC col false j1 + 1) = none) := hperp
            have h2 := hperp'.2
            rw [show cellC col false j1 = c by simp [cellC]; omega,
              show cellR row false j1 = r by simp [cellR]; omega] at h2
            rw [h2 hsz] at hs2'
            cases hs2'
        · -- new word horizontal: (r, c) is the run cell j1
          simp [cellR] at hr1
          simp [cellC] at hc1
          by_cases hlast : j1 + 1 < w.answer.length
          · exact absurd ⟨j1+1, hlast, by simp [cellR]; exact hr1,
              by simp [cellC]; omega⟩ hon2
          · -- j1 is the last index: the cell after the run is (r, c+1)
            exfalso
            have hsz : c + 1 < size := (oldBound r (c+1) hs2').2
            have hAB' : col + w.answer.length < size →
                g row (col + w.answer.length) = none := hAB
            have hend : col + w.answer.length = c + 1 := by omega
            rw [hend] at hAB'
            rw [← hr1] at hs2'
            rw [hAB' hsz] at hs2'
            cases hs2'
    · have hs1' : (g r c).isSome = true := by rw [← miss r c hon1]; exact hs1
      by_cases hon2 : ∃ j, j < w.answer.length ∧ cellR row h j = r ∧ cellC col h j = c + 1
      · obtain ⟨j2, hj2, hr2, hc2⟩ := hon2
        cases h
        · -- new word vertical at (r, c+1)
          simp [cellR] at hr2
          simp [cellC] at hc2
          have hcc := hCC j2 hj2
          unfold CellCond at hcc
          rcases hcc with hcc | ⟨hnone, hperp⟩
          · have hs2' : (g r (c+1)).isSome = true := by
              rw [show r = cellR row false j2 by simp [cellR]; omega,
                show c + 1 = cellC col false j2 by simp [cellC]; omega, hcc]
              rfl
            obtain ⟨p, hp, hh, hrow, i, hilen, hieq⟩ := hInv.adjH r c hs1' hs2'
            exact ⟨p, List.mem_append.mpr (Or.inl hp), hh, hrow, i, hilen, hieq⟩
          · exfalso
            have hperp' : (0 < cellC col false j2 →
                  g (cellR row false j2) (cellC col false j2 - 1) = none) ∧
                (cellC col false j2 + 1 < size →
                  g (cellR row false j2) (cellC col false j2 + 1) = none) := hperp
            have h1 := hperp'.1
            rw [show cellC col false j2 = c + 1 by simp [cellC]; omega,
              show cellR row false j2 = r by simp [cellR]; omega] at h1
            have := h1 (by omega)
            rw [show c + 1 - 1 = c by omega] at this
            rw [this] at hs1'
            cases hs1'
        · -- new word horizontal at (r, c+1)
          simp [cellR] at hr2
          simp [cellC] at hc2
          by_cases hfirst : 0 < j2
          · exact absurd ⟨j2 - 1, by omega, by simp [cellR]; exact hr2,
              by simp [cellC]; omega⟩ hon1
          · -- j2 = 0: the cell before the run is (r, c)
            exfalso
            have hBB' : 0 < col → g row (col - 1) = none := hBB
            have hcol : col = c + 1 := by omega
            have := hBB' (by omega)
            rw [hcol, show c + 1 - 1 = c by omega, hr2] at this
            rw [this] at hs1'
            cases hs1'
      · -- both cells off the run
        have hs2' : (g r (c+1)).isSome = true := by rw [← miss r (c+1) hon2]; exact hs2
        obtain ⟨p, hp, hh, hrow, i, hilen, hieq⟩ := hInv.adjH r c hs1' hs2'
        exact ⟨p, List.mem_append.mpr (Or.inl hp), hh, hrow, i, hilen, hieq⟩
  -- adjacency, vertical pairs
  · intro r c hs1 hs2
    by_cases hon1 : ∃ j, j < w.answer.length ∧ cellR row h j = r ∧ cellC col h j = c
    · obtain ⟨j1, hj1, hr1, hc1⟩ := hon1
      by_cases hon2 : ∃ j, j < w.answer.length ∧ cellR row h j = r + 1 ∧ cellC col h j = c
      · obtain ⟨j2, hj2, hr2, hc2⟩ := hon2
        cases h
        · simp [cellR] at hr1 hr2
          simp [cellC] at hc1
          refine ⟨⟨w, row, col, false⟩, List.mem_append.mpr (Or.inr (by simp)),
            rfl, hc1, j1, by show j1 + 1 < w.answer.length; omega, hr1⟩
        · -- horizontal run cannot contain a vertical pair
          simp [cellR] at hr1 hr2
          omega
      · have hs2' : (g (r+1) c).isSome = true := by rw [← miss (r+1) c hon2]; exact hs2
        cases h
        · -- new word vertical: (r, c) is run cell j1
          simp [cellR] at hr1
          simp [cellC] at hc1
          by_cases hlast : j1 + 1 < w.answer.length
          · exact absurd ⟨j1+1, hlast, by simp [cellR]; omega,
              by simp [cellC]; exact hc1⟩ hon2
          · exfalso
            have hsz : r + 1 < size := (oldBound (r+1) c hs2').1
            have hAB' : row + w.answer.length < size →
                g (row + w.answer.length) col = none := hAB
            have hend : row + w.answer.length = r + 1 := by omega
            rw [hend] at hAB'
            rw [← hc1] at hs2'
            rw [hAB' hsz] at hs2'
            cases hs2'
        · -- new word horizontal: fresh or intersection at (r, c)
          simp [cellR] at hr1
          simp [cellC] at hc1
          have hcc := hCC j1 hj1
          unfold CellCond at hcc
          rcases hcc with hcc | ⟨hnone, hperp⟩
          · have hs1' : (g r c).isSome = true := by
              rw [show r = cellR row true j1 by simp [cellR]; omega,
                show c = cellC col true j1 by simp [cellC]; omega, hcc]
              rfl
            obtain ⟨p, hp, hh, hcol, i, hilen, hieq⟩ := hInv.adjV r c hs1' hs2'
            exact ⟨p, List.mem_append.mpr (Or.inl hp), hh, hcol, i, hilen, hieq⟩
          · exfalso
            have hsz : r + 1 < size := (oldBound (r+1) c hs2').1
            have hperp' : (0 < cellR row true j1 →
                  g (cellR row true j1 - 1) (cellC col true j1) = none) ∧
                (cellR row true j1 + 1 < size →
                  g (cellR row true j1 + 1) (cellC col true j1) = none) := hperp
            have h2 := hperp'.2
            rw [show cellR row true j1 = r by simp [cellR]; omega,
              show cellC col true j1 = c by simp [cellC]; omega] at h2
            rw [h2 hsz] at hs2'
            cases hs2'
    · have hs1' : (g r c).isSome = true := by rw [← miss r c hon1]; exact hs1
      by_cases hon2 : ∃ j, j < w.answer.length ∧ cellR row h j = r + 1 ∧ cellC col h j = c
      · obtain ⟨j2, hj2, hr2, hc2⟩ := hon2
        cases h
        · -- new word vertical at (r+1, c)
          simp [cellR] at hr2
          simp [cellC] at hc2
          by_cases hfirst : 0 < j2
          · exact absurd ⟨j2 - 1, by omega, by simp [cellR]; omega,
              by simp [cellC]; exact hc2⟩ hon1
          · exfalso
            have hBB' : 0 < row → g (row - 1) col = none := hBB
            have hrow : row = r + 1 := by omega
            have := hBB' (by omega)
            rw [hrow, show r + 1 - 1 = r by omega, hc2] at this
            rw [this] at hs1'
            cases hs1'
        · -- new word horizontal at (r+1, c)
          simp [cellR] at hr2
          simp [cellC] at hc2
          have hcc := hCC j2 hj2
          unfold CellCond at hcc
          rcases hcc with hcc | ⟨hnone, hperp⟩
          · have hs2' : (g (r+1) c).isSome = true := by
              rw [show r + 1 = cellR row true j2 by simp [cellR]; omega,
                show c = cellC col true j2 by simp [cellC]; omega, hcc]
              rfl
            obtain ⟨p, hp, hh, hcol, i, hilen, hieq⟩ := hInv.adjV r c hs1' hs2'
            exact ⟨p, List.mem_append.mpr (Or.inl hp), hh, hcol, i, hilen, hieq⟩
          · exfalso
            have hperp' : (0 < cellR row true j2 →
                  g (cellR row true j2 - 1) (cellC col true j2) = none) ∧
                (cellR row true j2 + 1 < size →
                  g (cellR row true j2 + 1) (cellC col true j2) = none) := hperp
            have h1 := hperp'.1
            rw [show cellR row true j2 = r + 1 by simp [cellR]; omega,
              show cellC col true j2 = c by simp [cellC]; omega] at h1
            have := h1 (by omega)
            rw [show r + 1 - 1 = r by omega] at this
            rw [this] at hs1'
            cases hs1'
      · have hs2' : (g (r+1) c).isSome = true := by rw [← miss (r+1) c hon2]; exact hs2
        obtain ⟨p, hp, hh, hcol, i, hilen, hieq⟩ := hInv.adjV r c hs1' hs2'
        exact ⟨p, List.mem_append.mpr (Or.inl hp), hh, hcol, i, hilen, hieq⟩

/-! ## Soundness of `findPlacements` and the loop invariant -/

theorem findPlacementsAtCell_sound {g : Grid} {size : Nat} {word : List Nat}
    {ri : Bool} {r c : Nat} {p : Placement}
    (hp : p ∈ findPlacementsAtCell g size word ri r c) (hr : r < size) (hc : c < size) :
    canPlaceWord g size word p.row p.col p.horizontal ri = true ∧
      p.row < size ∧ p.col < size := by
  unfold findPlacementsAtCell at hp
  rcases hgc : g r c with _ | ex
  · simp only [hgc] at hp
    simp at hp
  · simp only [hgc] at hp
    rw [List.mem_flatMap] at hp
    obtain ⟨i, _, hp⟩ := hp
    by_cases hmatch : word.get? i = some ex
    · rw [if_pos hmatch] at hp
      rcases List.mem_append.mp hp with hp | hp
      · by_cases hcan : i ≤ c ∧ canPlaceWord g size word r (c - i) true ri = true
        · rw [if_pos hcan] at hp
          have hpe : p = ⟨r, c - i, true, countIntersections g word r (c - i) true⟩ := by
            simpa using hp
          subst hpe
          exact ⟨hcan.2, hr, by show c - i < size; omega⟩
        · rw [if_neg hcan] at hp
          simp at hp
      · by_cases hcan : i ≤ r ∧ canPlaceWord g size word (r - i) c false ri = true
        · rw [if_pos hcan] at hp
          have hpe : p = ⟨r - i, c, false, countIntersections g word (r - i) c false⟩ := by
            simpa using hp
          subst hpe
          exact ⟨hcan.2, by show r - i < size; omega, hc⟩
        · rw [if_neg hcan] at hp
          simp at hp
    · rw [if_neg hmatch] at hp
      simp at hp

theorem findPlacements_sound {g : Grid} {size : Nat} {word : List Nat} {ri : Bool}
    (p : Placement) (hp : p ∈ findPlacements g size word ri) :
    canPlaceWord g size word p.row p.col p.horizontal ri = true ∧
      p.row < size ∧ p.col < size := by
  simp only [findPlacements, mem_stableSort] at hp
  split at hp
  case isTrue hcond =>
    rw [List.mem_flatMap] at hp
    obtain ⟨r, hrm, hp⟩ := hp
    rw [List.mem_flatMap] at hp
    obtain ⟨c, hcm, hp⟩ := hp
    have hr : r < size := List.mem_range.mp hrm
    have hc : c < size := List.mem_range.mp hcm
    rcases List.mem_append.mp hp with hp | hp
    · by_cases hcan : canPlaceWord g size word r c true false = true
      · rw [if_pos hcan] at hp
        have hpe : p = ⟨r, c, true, 0⟩ := by simpa using hp
        subst hpe
        exact ⟨by rw [hcond.2]; exact hcan, hr, hc⟩
      · rw [if_neg hcan] at hp
        simp at hp
    · by_cases hcan : canPlaceWord g size word r c false false = true
      · rw [if_pos hcan] at hp
        have hpe : p = ⟨r, c, false, 0⟩ := by simpa using hp
        subst hpe
        exact ⟨by rw [hcond.2]; exact hcan, hr, hc⟩
      · rw [if_neg hcan] at hp
        simp at hp
  case isFalse =>
    rw [List.mem_flatMap] at hp
    obtain ⟨r, hrm, hp⟩ := hp
    rw [List.mem_flatMap] at hp
    obtain ⟨c, hcm, hp⟩ := hp
    exact findPlacementsAtCell_sound hp (List.mem_range.mp hrm) (List.mem_range.mp hcm)

theorem canPlaceWord_endsOk {g : Grid} {size : Nat} {word : List Nat}
    {row col : Nat} {h ri : Bool}
    (hcan : canPlaceWord g size word row col h ri = true) :
    endsOk g size word row col h = true := by
  unfold canPlaceWord at hcan
  by_cases he : endsOk g size word row col h = true
  · exact he
  · rw [if_neg he] at hcan
    cases hcan

theorem endsOk_lenBound_h {g : Grid} {size : Nat} {word : List Nat} {row col : Nat}
    (h : endsOk g size word row col true = true) : col + word.length ≤ size := by
  have hE : endsOk g size word row col true =
      (if size < col + word.length then false
       else if decide (0 < col) && (g row (col-1)).isSome then false
       else if decide (col + word.length < size) &&
           (g row (col+word.length)).isSome then false
       else true) := rfl
  rw [hE] at h
  by_cases h1 : size < col + word.length
  · rw [if_pos h1] at h
    cases h
  · omega

theorem inv_seedSt (size : Nat) (shuffled : List WordClue) :
    Inv size (seedSt size shuffled).1 (seedSt size shuffled).2 := by
  rcases shuffled with _ | ⟨first, rest⟩
  · exact inv_empty size
  · have hseed : seedSt size (first :: rest) =
        (if canPlaceWord emptyGrid size first.answer (size / 2)
            ((size - first.answer.length) / 2) true false = true then
          (placeWord emptyGrid first.answer (size / 2)
              ((size - first.answer.length) / 2) true,
            [⟨first, size / 2, (size - first.answer.length) / 2, true⟩])
        else (emptyGrid, [])) := rfl
    rw [hseed]
    by_cases hcan : canPlaceWord emptyGrid size first.answer (size / 2)
        ((size - first.answer.length) / 2) true false = true
    · rw [if_pos hcan]
      have hlen : (size - first.answer.length) / 2 + first.answer.length ≤ size :=
        endsOk_lenBound_h (canPlaceWord_endsOk hcan)
      apply (inv_empty size).place
      refine ⟨?_, fun _ => rfl, ?_, ?_⟩
      · intro i hi
        refine ⟨?_, ?_⟩
        · show size / 2 < size
          omega
        · show (size - first.answer.length) / 2 + i < size
          omega
      · show (size - first.answer.length) / 2 + first.answer.length < size →
          emptyGrid (size / 2) ((size - first.answer.length) / 2 + first.answer.length) = none
        intro _
        rfl
      · intro j hj
        exact Or.inr ⟨rfl, fun _ => rfl, fun _ => rfl⟩
    · rw [if_neg hcan]
      exact inv_empty size

theorem inv_mainStep {size : Nat} {st : St} (hInv : Inv size st.1 st.2)
    (w : WordClue) : Inv size (mainStep size st w).1 (mainStep size st w).2 := by
  unfold mainStep
  rcases hfp : findPlacements st.1 size w.answer true with _ | ⟨p, rest⟩
  · exact hInv
  · have hmem : p ∈ findPlacements st.1 size w.answer true := by
      rw [hfp]
      exact List.mem_cons_self _ _
    obtain ⟨hcan, hr, hc⟩ := findPlacements_sound p hmem
    exact hInv.place w p.row p.col p.horizontal
      (canPlaceWord_placeOk st.1 size w.answer p.row p.col p.horizontal true hcan hr hc)

theorem inv_edgeStep {size : Nat} {st : St} (hInv : Inv size st.1 st.2)
    (w : WordClue) : Inv size (edgeStep size st w).1 (edgeStep size st w).2 := by
  unfold edgeStep
  rcases hfp : (findPlacements st.1 size w.answer false).filter
      (isEdgePlacement size w.answer.length) with _ | ⟨p, rest⟩
  · exact hInv
  · have hmem : p ∈ findPlacements st.1 size w.answer false := by
      apply List.mem_of_mem_filter (p := isEdgePlacement size w.answer.length)
      rw [hfp]
      exact List.mem_cons_self _ _
    obtain ⟨hcan, hr, hc⟩ := findPlacements_sound p hmem
    exact hInv.place w p.row p.col p.horizontal
      (canPlaceWord_placeOk st.1 size w.answer p.row p.col p.horizontal false hcan hr hc)

theorem inv_foldl (size : Nat) (step : St → WordClue → St)
    (hstep : ∀ st w, Inv size st.1 st.2 → Inv size (step st w).1 (step st w).2) :
    ∀ (l : List WordClue) (st : St), Inv size st.1 st.2 →
      Inv size (l.foldl step st).1 (l.foldl step st).2
  | [], _, h => h
  | w :: ws, st, h => inv_foldl size step hstep ws (step st w) (hstep st w h)

theorem inv_runAttempt (size : Nat) (shuffled : List WordClue) :
    Inv size (runAttempt size shuffled).1 (runAttempt size shuffled).2 := by
  unfold runAttempt
  apply inv_foldl size (edgeStep size) (fun st w h => inv_edgeStep h w)
  apply inv_foldl size (mainStep size) (fun st w h => inv_mainStep h w)
  exact inv_seedSt size shuffled

theorem updateBest_cases (b res : AttemptOut) :
    updateBest b res = b ∨ updateBest b res = res := by
  unfold updateBest
  split_ifs
  · exact Or.inr rfl
  · exact Or.inl rfl

theorem attemptsFrom_pres (rng : Nat → List WordClue → List WordClue)
    (uw : List WordClue) (size : Nat) (P : AttemptOut → Prop)
    (hP : ∀ j, P (attemptResult size (rng j uw))) :
    ∀ (fuel i : Nat) (best : Option AttemptOut) (b : AttemptOut),
      (∀ x, best = some x → P x) →
      attemptsFrom rng uw size i fuel best = some b → P b
  | 0, _, _, b, hbest, heq => hbest b heq
  | fuel+1, i, best, b, hbest, heq => by
    rcases best with _ | x
    · have heq' : (if earlyExit size (attemptResult size (rng i uw)) = true then
          some (attemptResult size (rng i uw))
        else attemptsFrom rng uw size (i+1) fuel
          (some (attemptResult size (rng i uw)))) = some b := heq
      by_cases he : earlyExit size (attemptResult size (rng i uw)) = true
      · rw [if_pos he] at heq'
        rw [← Option.some.inj heq']
        exact hP i
      · rw [if_neg he] at heq'
        exact attemptsFrom_pres rng uw size P hP fuel (i+1) _ b
          (fun y hy => by rw [← Option.some.inj hy]; exact hP i) heq'
    · have hbx : P (updateBest x (attemptResult size (rng i uw))) := by
        rcases updateBest_cases x (attemptResult size (rng i uw)) with hu | hu
        · rw [hu]
          exact hbest x rfl
        · rw [hu]
          exact hP i
      have heq' : (if earlyExit size (attemptResult size (rng i uw)) = true then
          some (updateBest x (attemptResult size (rng i uw)))
        else attemptsFrom rng uw size (i+1) fuel
          (some (updateBest x (attemptResult size (rng i uw))))) = some b := heq
      by_cases he : earlyExit size (attemptResult size (rng i uw)) = true
      · rw [if_pos he] at heq'
        rw [← Option.some.inj heq']
        exact hbx
      · rw [if_neg he] at heq'
        exact attemptsFrom_pres rng uw size P hP fuel (i+1) _ b
          (fun y hy => by rw [← Option.some.inj hy]; exact hbx) heq'

theorem bestOf_inv (words : List WordClue) (size : Nat)
    (rng : Nat → List WordClue → List WordClue) (b : AttemptOut)
    (hb : bestOf words size rng = some b) : Inv size b.grid b.placed := by
  refine attemptsFrom_pres rng (preprocess words size) size
    (fun x => Inv size x.grid x.placed) ?_ maxAttempts 0 none b ?_ hb
  · intro j
    exact inv_runAttempt size (rng j (preprocess words size))
  · intro x hx
    cases hx

/-- Deconstruction of a successful `generateCrossword` run. -/
theorem generateCrossword_spec (words : List WordClue) (size : Nat)
    (rng : Nat → List WordClue → List WordClue) (res : CrosswordResult)
    (h : generateCrossword words size rng = some res) :
    ∃ b, bestOf words size rng = some b ∧ Inv size b.grid b.placed ∧
      res.letters = b.grid ∧
      res.words = b.placed.map (toPlacedWord b.grid size) ∧
      res = buildResult size b ∧ 0 < b.placed.length := by
  unfold generateCrossword at h
  rcases hb : bestOf words size rng with _ | b
  · rw [hb] at h
    cases h
  · rw [hb] at h
    have h' : (if b.placed.length = 0 then none
        else some (buildResult size b)) = some res := h
    by_cases hz : b.placed.length = 0
    · rw [if_pos hz] at h'
      cases h'
    · rw [if_neg hz] at h'
      have hres : res = buildResult size b := (Option.some.inj h').symm
      exact ⟨b, rfl, bestOf_inv words size rng b hb, by rw [hres]; rfl,
        by rw [hres]; rfl, hres, by omega⟩

/-! ## Provenance of placed words -/

theorem seedSt_sub (size : Nat) (shuffled : List WordClue) (p : PRaw)
    (hp : p ∈ (seedSt size shuffled).2) : p.word ∈ shuffled := by
  rcases shuffled with _ | ⟨first, rest⟩
  · simp [seedSt] at hp
  · have hseed : seedSt size (first :: rest) =
        (if canPlaceWord emptyGrid size first.answer (size / 2)
            ((size - first.answer.length) / 2) true false = true then
          (placeWord emptyGrid first.answer (size / 2)
              ((size - first.answer.length) / 2) true,
            [⟨first, size / 2, (size - first.answer.length) / 2, true⟩])
        else (emptyGrid, [])) := rfl
    rw [hseed] at hp
    by_cases hcan : canPlaceWord emptyGrid size first.answer (size / 2)
        ((size - first.answer.length) / 2) true false = true
    · rw [if_pos hcan] at hp
      have : p = ⟨first, size / 2, (size - first.answer.length) / 2, true⟩ := by
        simpa using hp
      rw [this]
      exact List.mem_cons_self _ _
    · rw [if_neg hcan] at hp
      simp at hp

theorem mainStep_sub (size : Nat) (st : St) (w : WordClue) (p : PRaw)
    (hp : p ∈ (mainStep size st w).2) : p ∈ st.2 ∨ p.word = w := by
  unfold mainStep at hp
  rcases hfp : findPlacements st.1 size w.answer true with _ | ⟨q, rest⟩ <;>
    rw [hfp] at hp
  · exact Or.inl hp
  · rcases List.mem_append.mp hp with hp | hp
    · exact Or.inl hp
    · have : p = ⟨w, q.row, q.col, q.horizontal⟩ := by simpa using hp
      exact Or.inr (by rw [this])

theorem edgeStep_sub (size : Nat) (st : St) (w : WordClue) (p : PRaw)
    (hp : p ∈ (edgeStep size st w).2) : p ∈ st.2 ∨ p.word = w := by
  unfold edgeStep at hp
  rcases hfp : (findPlacements st.1 size w.answer false).filter
      (isEdgePlacement size w.answer.length) with _ | ⟨q, rest⟩ <;>
    rw [hfp] at hp
  · exact Or.inl hp
  · rcases List.mem_append.mp hp with hp | hp
    · exact Or.inl hp
    · have : p = ⟨w, q.row, q.col, q.horizontal⟩ := by simpa using hp
      exact Or.inr (by rw [this])

theorem foldl_sub (size : Nat) (step : St → WordClue → St)
    (hstep : ∀ st w p, p ∈ (step st w).2 → p ∈ st.2 ∨ p.word = w) :
    ∀ (l : List WordClue) (st : St) (p : PRaw),
      p ∈ (l.foldl step st).2 → p ∈ st.2 ∨ p.word ∈ l
  | [], _, _, hp => Or.inl hp
  | w :: ws, st, p, hp => by
    rcases foldl_sub size step hstep ws (step st w) p hp with h | h
    · rcases hstep st w p h with h' | h'
      · exact Or.inl h'
      · exact Or.inr (by rw [h']; exact List.mem_cons_self _ _)
    · exact Or.inr (List.mem_cons_of_mem _ h)

theorem runAttempt_sub (size : Nat) (shuffled : List WordClue) (p : PRaw)
    (hp : p ∈ (runAttempt size shuffled).2) : p.word ∈ shuffled := by
  unfold runAttempt at hp
  rcases foldl_sub size (edgeStep size) (edgeStep_sub size) _ _ p hp with h | h
  · rcases foldl_sub size (mainStep size) (mainStep_sub size) _ _ p h with h' | h'
    · exact seedSt_sub size shuffled p h'
    · exact List.mem_of_mem_drop h'
  · have := List.mem_of_mem_filter h
    exact List.mem_of_mem_filter this

theorem dedupeAux_sub : ∀ (l : List WordClue) (seen : List (List Nat)) (w : WordClue),
    w ∈ dedupeAux l seen → w ∈ l
  | [], _, _, hw => by simp [dedupeAux] at hw
  | x :: rest, seen, w, hw => by
    unfold dedupeAux at hw
    by_cases hx : x.answer ∈ seen
    · rw [if_pos hx] at hw
      exact List.mem_cons_of_mem _ (dedupeAux_sub rest seen w hw)
    · rw [if_neg hx] at hw
      rcases List.mem_cons.mp hw with hw | hw
      · exact hw ▸ List.mem_cons_self _ _
      · exact List.mem_cons_of_mem _ (dedupeAux_sub rest _ w hw)

theorem preprocess_mem (words : List WordClue) (size : Nat) (w : WordClue)
    (hw : w ∈ preprocess words size) :
    2 ≤ w.answer.length ∧ w.answer.length ≤ size ∧
      normalizeJapanese w.answer = w.answer := by
  simp only [preprocess, mem_stableSort] at hw
  have hw' := dedupeAux_sub _ [] w hw
  rw [List.mem_filter] at hw'
  obtain ⟨hmem, hfilt⟩ := hw'
  rw [List.mem_map] at hmem
  obtain ⟨orig, _, horig⟩ := hmem
  have hnorm : normalizeJapanese w.answer = w.answer := by
    rw [← horig]
    exact normalizeJapanese_idem orig.answer
  have hb : 2 ≤ w.answer.length ∧ w.answer.length ≤ size := by
    simpa using hfilt
  exact ⟨hb.1, hb.2, hnorm⟩

/-- Every placed word of the final best attempt comes from the filtered,
normalized candidate list. -/
theorem bestOf_words_mem (words : List WordClue) (size : Nat)
    (rng : Nat → List WordClue → List WordClue)
    (hrng : ∀ i l, (rng i l).Perm l) (b : AttemptOut)
    (hb : bestOf words size rng = some b) (p : PRaw) (hp : p ∈ b.placed) :
    p.word ∈ preprocess words size := by
  refine attemptsFrom_pres rng (preprocess words size) size
    (fun x => ∀ q ∈ x.placed, q.word ∈ preprocess words size) ?_
    maxAttempts 0 none b ?_ hb p hp
  · intro j q hq
    have := runAttempt_sub size (rng j (preprocess words size)) q hq
    exact (hrng j (preprocess words size)).mem_iff.mp this
  · intro x hx
    cases hx

/-! ## Claim-level grid properties -/

def wcellR (w : PlacedWord) (i : Nat) : Nat :=
  if w.orientation = Orientation.across then w.startRow else w.startRow + i

def wcellC (w : PlacedWord) (i : Nat) : Nat :=
  if w.orientation = Orientation.across then w.startCol + i else w.startCol

/-- Claim C1: every orthogonally adjacent pair of letter cells lies
consecutively on a placed word aligned with the direction of adjacency. -/
def AdjacencyInvariant (res : CrosswordResult) : Prop :=
  (∀ r c, (res.letters r c).isSome = true → (res.letters r (c+1)).isSome = true →
    ∃ w, w ∈ res.words ∧ w.orientation = Orientation.across ∧ w.startRow = r ∧
      ∃ i, i + 1 < w.length ∧ w.startCol + i = c) ∧
  (∀ r c, (res.letters r c).isSome = true → (res.letters (r+1) c).isSome = true →
    ∃ w, w ∈ res.words ∧ w.orientation = Orientation.down ∧ w.startCol = c ∧
      ∃ i, i + 1 < w.length ∧ w.startRow + i = r)

/-- Claim C10: the letter cells are exactly the cells spanned by the placed
words, and each word's graphemes are on the grid at its cells. -/
def NoOrphans (res : CrosswordResult) : Prop :=
  (∀ r c, (res.letters r c).isSome = true ↔
    ∃ w, w ∈ res.words ∧ ∃ i, i < w.length ∧ wcellR w i = r ∧ wcellC w i = c) ∧
  (∀ w ∈ res.words, ∀ i, i < w.length →
    res.letters (wcellR w i) (wcellC w i) = w.answer.get? i)

/-- Claim C4 as stated: in the final grid, the cell immediately before and
the cell immediately after every placed word, when within the grid, are
blocked. -/
def TerminationInvariant (res : CrosswordResult) (size : Nat) : Prop :=
  ∀ w, w ∈ res.words →
    (w.orientation = Orientation.across →
      (0 < w.startCol → res.letters w.startRow (w.startCol - 1) = none) ∧
      (w.startCol + w.length < size →
        res.letters w.startRow (w.startCol + w.length) = none)) ∧
    (w.orientation = Orientation.down →
      (0 < w.startRow → res.letters (w.startRow - 1) w.startCol = none) ∧
      (w.startRow + w.length < size →
        res.letters (w.startRow + w.length) w.startCol = none))

theorem toPlacedWord_cells (g : Grid) (size : Nat) (p : PRaw) (i : Nat) :
    wcellR (toPlacedWord g size p) i = pcellR p i ∧
      wcellC (toPlacedWord g size p) i = pcellC p i := by
  cases hh : p.horizontal <;>
    simp [toPlacedWord, wcellR, wcellC, pcellR, pcellC, cellR, cellC, hh]

theorem toPlacedWord_orientation (g : Grid) (size : Nat) (p : PRaw) :
    (toPlacedWord g size p).orientation =
      (if p.horizontal then Orientation.across else Orientation.down) := rfl

/-- C1: for every candidate list, grid size, and shuffle oracle, if
`generateCrossword` succeeds then every pair of orthogonally adjacent letter
cells of the returned grid lies consecutively on a placed word of the
returned list, aligned with the direction of adjacency — no two distinct
words run side-by-side. -/
theorem claim_C1_adjacency (words : List WordClue) (size : Nat)
    (rng : Nat → List WordClue → List WordClue) (res : CrosswordResult)
    (h : generateCrossword words size rng = some res) :
    AdjacencyInvariant res := by
  obtain ⟨b, _, hInv, hL, hW, _, _⟩ := generateCrossword_spec words size rng res h
  constructor
  · intro r c h1 h2
    rw [hL] at h1 h2
    obtain ⟨p, hp, hh, hrow, i, hlen, hieq⟩ := hInv.adjH r c h1 h2
    refine ⟨toPlacedWord b.grid size p, by rw [hW]; exact List.mem_map_of_mem _ hp,
      ?_, hrow, i, hlen, hieq⟩
    rw [toPlacedWord_orientation, hh]
    rfl
  · intro r c h1 h2
    rw [hL] at h1 h2
    obtain ⟨p, hp, hh, hcol, i, hlen, hieq⟩ := hInv.adjV r c h1 h2
    refine ⟨toPlacedWord b.grid size p, by rw [hW]; exact List.mem_map_of_mem _ hp,
      ?_, hcol, i, hlen, hieq⟩
    rw [toPlacedWord_orientation, hh]
    rfl

/-- C10: in every successful synthesis result, the letter cells of the grid
are exactly the union of the cells spanned by the returned placed words, and
each word's graphemes are on the grid — no orphan letters. -/
theorem claim_C10_no_orphans (words : List WordClue) (size : Nat)
    (rng : Nat → List WordClue → List WordClue) (res : CrosswordResult)
    (h : generateCrossword words size rng = some res) :
    NoOrphans res := by
  obtain ⟨b, _, hInv, hL, hW, _, _⟩ := generateCrossword_spec words size rng res h
  constructor
  · intro r c
    rw [hL]
    constructor
    · intro hs
      obtain ⟨p, hp, i, hi, h1, h2⟩ := hInv.coverage r c hs
      refine ⟨toPlacedWord b.grid size p, by rw [hW]; exact List.mem_map_of_mem _ hp,
        i, hi, ?_, ?_⟩
      · rw [(toPlacedWord_cells b.grid size p i).1]
        exact h1
      · rw [(toPlacedWord_cells b.grid size p i).2]
        exact h2
    · rintro ⟨w, hw, i, hi, h1, h2⟩
      rw [hW] at hw
      rw [List.mem_map] at hw
      obtain ⟨p, hp, hpe⟩ := hw
      rw [← hpe] at h1 h2 hi
      rw [(toPlacedWord_cells b.grid size p i).1] at h1
      rw [(toPlacedWord_cells b.grid size p i).2] at h2
      have hi' : i < p.word.answer.length := hi
      rw [← h1, ← h2, hInv.content p hp i hi']
      rfl
  · intro w hw i hi
    rw [hW] at hw
    rw [List.mem_map] at hw
    obtain ⟨p, hp, hpe⟩ := hw
    rw [← hpe] at hi ⊢
    rw [(toPlacedWord_cells b.grid size p i).1, (toPlacedWord_cells b.grid size p i).2]
    have hi' : i < p.word.answer.length := hi
    rw [hL, hInv.content p hp i hi']
    show _ = p.word.answer.get? i
    rw [List.get?_eq_get hi']

/-- C4 (amended): in the final grid the cell immediately before / after a
placed word, when within the grid, is either blocked or lies together with
the word's end cell on another placed word of the same orientation (the case
of a longer word placed later that extends the earlier word). -/
def TerminationOrExtended (res : CrosswordResult) (size : Nat) : Prop :=
  ∀ w, w ∈ res.words →
    (w.orientation = Orientation.across →
      (0 < w.startCol →
        res.letters w.startRow (w.startCol - 1) = none ∨
        ∃ w', w' ∈ res.words ∧ w'.orientation = Orientation.across ∧
          w'.startRow = w.startRow ∧
          ∃ i, i + 1 < w'.length ∧ w'.startCol + i = w.startCol - 1) ∧
      (w.startCol + w.length < size →
        res.letters w.startRow (w.startCol + w.length) = none ∨
        ∃ w', w' ∈ res.words ∧ w'.orientation = Orientation.across ∧
          w'.startRow = w.startRow ∧
          ∃ i, i + 1 < w'.length ∧ w'.startCol + i = w.startCol + w.length - 1)) ∧
    (w.orientation = Orientation.down →
      (0 < w.startRow →
        res.letters (w.startRow - 1) w.startCol = none ∨
        ∃ w', w' ∈ res.words ∧ w'.orientation = Orientation.down ∧
          w'.startCol = w.startCol ∧
          ∃ i, i + 1 < w'.length ∧ w'.startRow + i = w.startRow - 1) ∧
      (w.startRow + w.length < size →
        res.letters (w.startRow + w.length) w.startCol = none ∨
        ∃ w', w' ∈ res.words ∧ w'.orientation = Orientation.down ∧
          w'.startCol = w.startCol ∧
          ∃ i, i + 1 < w'.length ∧ w'.startRow + i = w.startRow + w.length - 1))

/-- C4 (amended): what does hold of every successful result in the *final*
grid: each placed word's before/after cell, when within the grid, is blocked
unless an aligned placed word covers it together with the word's end cell
(a longer word placed later extended the earlier word). -/
theorem claim_C4_amended (words : List WordClue) (size : Nat)
    (rng : Nat → List WordClue → List WordClue)
    (hrng : ∀ i l, (rng i l).Perm l) (res : CrosswordResult)
    (h : generateCrossword words size rng = some res) :
    TerminationOrExtended res size := by
  obtain ⟨b, hbest, hInv, hL, hW, _, _⟩ := generateCrossword_spec words size rng res h
  intro w hw
  rw [hW] at hw
  rw [List.mem_map] at hw
  obtain ⟨p, hp, hpe⟩ := hw
  have hlen : 2 ≤ p.word.answer.length :=
    (preprocess_mem words size p.word (bestOf_words_mem words size rng hrng b hbest p hp)).1
  subst hpe
  constructor
  · intro hor
    have hh : p.horizontal = true := by
      cases hx : p.horizontal
      · rw [toPlacedWord_orientation, hx] at hor
        exact Orientation.noConfusion hor
      · rfl
    constructor
    · intro hpos
      have hpos' : 0 < p.col := hpos
      by_cases hbefore : (b.grid p.row (p.col - 1)).isSome = true
      · right
        have h0 : (b.grid p.row p.col).isSome = true := by
          have := hInv.content p hp 0 (by omega)
          have hcell : pcellR p 0 = p.row ∧ pcellC p 0 = p.col := by
            simp [pcellR, pcellC, cellR, cellC, hh]
          rw [hcell.1, hcell.2] at this
          rw [this]
          rfl
        have hpair := hInv.adjH p.row (p.col - 1) hbefore
          (by rw [show p.col - 1 + 1 = p.col by omega]; exact h0)
        obtain ⟨q, hq, hqh, hqrow, i, hqlen, hqeq⟩ := hpair
        refine ⟨toPlacedWord b.grid size q, by rw [hW]; exact List.mem_map_of_mem _ hq,
          ?_, hqrow, i, hqlen, hqeq⟩
        rw [toPlacedWord_orientation, hqh]
        rfl
      · left
        rw [hL]
        show b.grid p.row (p.col - 1) = none
        rcases hval : b.grid p.row (p.col - 1) with _ | v
        · rfl
        · rw [hval] at hbefore
          exact absurd rfl hbefore
    · intro hlt
      have hlt' : p.col + p.word.answer.length < size := hlt
      by_cases hafter : (b.grid p.row (p.col + p.word.answer.length)).isSome = true
      · right
        have hlast : (b.grid p.row (p.col + p.word.answer.length - 1)).isSome = true := by
          have := hInv.content p hp (p.word.answer.length - 1) (by omega)
          have hcell : pcellR p (p.word.answer.length - 1) = p.row ∧
              pcellC p (p.word.answer.length - 1) = p.col + p.word.answer.length - 1 := by
            simp [pcellR, pcellC, cellR, cellC, hh]
            omega
          rw [hcell.1, hcell.2] at this
          rw [this]
          rfl
        have hpair := hInv.adjH p.row (p.col + p.word.answer.length - 1) hlast
          (by rw [show p.col + p.word.answer.length - 1 + 1 =
              p.col + p.word.answer.length by omega]; exact hafter)
        obtain ⟨q, hq, hqh, hqrow, i, hqlen, hqeq⟩ := hpair
        refine ⟨toPlacedWord b.grid size q, by rw [hW]; exact List.mem_map_of_mem _ hq,
          ?_, hqrow, i, hqlen, hqeq⟩
        rw [toPlacedWord_orientation, hqh]
        rfl
      · left
        rw [hL]
        show b.grid p.row (p.col + p.word.answer.length) = none
        rcases hval : b.grid p.row (p.col + p.word.answer.length) with _ | v
        · rfl
        · rw [hval] at hafter
          exact absurd rfl hafter
  · intro hor
    have hh : p.horizontal = false := by
      cases hx : p.horizontal
      · rfl
      · rw [toPlacedWord_orientation, hx] at hor
        exact Orientation.noConfusion hor
    constructor
    · intro hpos
      have hpos' : 0 < p.row := hpos
      by_cases hbefore : (b.grid (p.row - 1) p.col).isSome = true
      · right
        have h0 : (b.grid p.row p.col).isSome = true := by
          have := hInv.content p hp 0 (by omega)
          have hcell : pcellR p 0 = p.row ∧ pcellC p 0 = p.col := by
            simp [pcellR, pcellC, cellR, cellC, hh]
          rw [hcell.1, hcell.2] at this
          rw [this]
          rfl
        have hpair := hInv.adjV (p.row - 1) p.col hbefore
          (by rw [show p.row - 1 + 1 = p.row by omega]; exact h0)
        obtain ⟨q, hq, hqh, hqcol, i, hqlen, hqeq⟩ := hpair
        refine ⟨toPlacedWord b.grid size q, by rw [hW]; exact List.mem_map_of_mem _ hq,
          ?_, hqcol, i, hqlen, hqeq⟩
        rw [toPlacedWord_orientation, hqh]
        rfl
      · left
        rw [hL]
        show b.grid (p.row - 1) p.col = none
        rcases hval : b.grid (p.row - 1) p.col with _ | v
        · rfl
        · rw [hval] at hbefore
          exact absurd rfl hbefore
    · intro hlt
      have hlt' : p.row + p.word.answer.length < size := hlt
      by_cases hafter : (b.grid (p.row + p.word.answer.length) p.col).isSome = true
      · right
        have hlast : (b.grid (p.row + p.word.answer.length - 1) p.col).isSome = true := by
          have := hInv.content p hp (p.word.answer.length - 1) (by omega)
          have hcell : pcellR p (p.word.answer.length - 1) =
              p.row + p.word.answer.length - 1 ∧
              pcellC p (p.word.answer.length - 1) = p.col := by
            simp [pcellR, pcellC, cellR, cellC, hh]
            omega
          rw [hcell.1, hcell.2] at this
          rw [this]
          rfl
        have hpair := hInv.adjV (p.row + p.word.answer.length - 1) p.col hlast
          (by rw [show p.row + p.word.answer.length - 1 + 1 =
              p.row + p.word.answer.length by omega]; exact hafter)
        obtain ⟨q, hq, hqh, hqcol, i, hqlen, hqeq⟩ := hpair
        refine ⟨toPlacedWord b.grid size q, by rw [hW]; exact List.mem_map_of_mem _ hq,
          ?_, hqcol, i, hqlen, hqeq⟩
        rw [toPlacedWord_orientation, hqh]
        rfl
      · left
        rw [hL]
        show b.grid (p.row + p.word.answer.length) p.col = none
        rcases hval : b.grid (p.row + p.word.answer.length) p.col with _ | v
        · rfl
        · rw [hval] at hafter
          exact absurd rfl hafter

/-! ## Concrete instances

Katakana code points: ア 0x30A2, イ 0x30A4, ウ 0x30A6, エ 0x30A8, オ 0x30AA,
カ 0x30AB, キ 0x30AD, ク 0x30AF, ケ 0x30B1, コ 0x30B3, サ 0x30B5, シ 0x30B7,
ト 0x30C8, ネ 0x30CD, リ 0x30EA, the long-vowel mark is unused here. -/

def wKOTO : WordClue := ⟨[0x30B3, 0x30C8], "koto"⟩

def wNEKOTORI : WordClue := ⟨[0x30CD, 0x30B3, 0x30C8, 0x30EA], "nekotori"⟩

def wNEKO : WordClue := ⟨[0x30CD, 0x30B3], "neko"⟩

def wA1 : WordClue := ⟨[0x30A2], "a"⟩

def rngId : Nat → List WordClue → List WordClue := fun _ l => l

/-- Reversal: a permutation, hence a run the source's random shuffle can take. -/
def rngRev : Nat → List WordClue → List WordClue := fun _ l => l.reverse

def emptyResult : CrosswordResult :=
  ⟨0, 0, emptyGrid, fun _ _ => ⟨none, none, true⟩, [], 0⟩

def getResult (o : Option CrosswordResult) : CrosswordResult :=
  o.getD emptyResult

/-- C2: for in-bounds start positions, `canPlaceWord` returns `true` exactly
under the spec's `can_place` contract: run in bounds, run ends blocked when
in bounds, every run cell an intersection or blocked with blocked
perpendicular neighbours, and an intersection required when asked for. -/
theorem claim_C2_can_place (grid : Grid) (size : Nat) (word : List Nat)
    (row col : Nat) (horizontal requireIntersection : Bool)
    (hr : row < size) (hc : col < size) :
    canPlaceWord grid size word row col horizontal requireIntersection = true ↔
      CanPlaceSpec grid size word row col horizontal requireIntersection :=
  canPlaceWord_char grid size word row col horizontal requireIntersection hr hc

theorem claim_C2_can_place_witness :
    ((2 : Nat) < 5 ∧ (1 : Nat) < 5) ∧
    (canPlaceWord emptyGrid 5 [0x30CD, 0x30B3] 2 1 true false = true ↔
      CanPlaceSpec emptyGrid 5 [0x30CD, 0x30B3] 2 1 true false) :=
  ⟨⟨by decide, by decide⟩,
    claim_C2_can_place emptyGrid 5 [0x30CD, 0x30B3] 2 1 true false
      (by decide) (by decide)⟩

set_option maxRecDepth 40000

/-- C9: normalization is idempotent: `normalize(normalize(x)) = normalize(x)`
for every input. -/
theorem claim_C9_normalize_idempotent (x : List Nat) :
    normalizeJapanese (normalizeJapanese x) = normalizeJapanese x :=
  normalizeJapanese_idem x

/-! ## Answer check and hint (`puzzleService.ts` lines 202-260)

A JS object assigns sequentially with later keys overwriting earlier ones;
`recLookup` models reading such a record built left to right. -/

def recLookup {α : Type} (t : List (String × α)) (k : String) : Option α :=
  t.foldl (fun acc e => if e.1 = k then some e.2 else acc) none

/-- The key `"{number}-{orientation}"`. -/
def hintKey (n : Nat) (direction : String) : String :=
  toString n ++ "-" ++ direction

def fullWidthUnderscore : Nat := 0xFF3F

structure HintResult where
  hint : List Nat
  revealed : Nat
  total : Nat
deriving DecidableEq

/-- Outcomes of `getHint` (source lines 234-260): a missing key throws
`Clue not found` (UnknownClue); an empty stored answer would make
`'＿'.repeat(-1)` throw a RangeError. -/
inductive HintOutcome where
  | unknownClue
  | rangeError
  | ok (h : HintResult)
deriving DecidableEq

/-- `getHint` over the stored answers table (the only part of the puzzle
record it consults). -/
def getHint (answers : List (String × List Nat)) (clueNumber : Nat)
    (direction : String) : HintOutcome :=
  match recLookup answers (hintKey clueNumber direction) with
  | none => HintOutcome.unknownClue
  | some ans =>
    match ans with
    | [] => HintOutcome.rangeError
    | ch :: rest =>
      HintOutcome.ok ⟨ch :: List.replicate rest.length fullWidthUnderscore,
        1, rest.length + 1⟩

/-- C7: for every answers table, a key present with a nonempty answer yields
the answer's first grapheme followed by `length − 1` full-width underscores,
with `revealed = 1` and `total` the grapheme count; a missing key fails with
UnknownClue. -/
theorem claim_C7_hint (answers : List (String × List Nat)) (n : Nat)
    (direction : String) :
    (recLookup answers (hintKey n direction) = none →
      getHint answers n direction = HintOutcome.unknownClue) ∧
    (∀ a l, recLookup answers (hintKey n direction) = some (a :: l) →
      getHint answers n direction =
        HintOutcome.ok ⟨a :: List.replicate l.length fullWidthUnderscore,
          1, l.length + 1⟩) := by
  constructor
  · intro h
    unfold getHint
    rw [h]
  · intro a l h
    unfold getHint
    rw [h]

/-- Witness: spec scenario S3 — `hint(4, "across")` on answer ウクライナ gives
ウ＿＿＿＿ with `revealed 1, total 5`; a missing key gives UnknownClue. -/
theorem claim_C7_hint_witness :
    (recLookup [("4-across", [0x30A6, 0x30AF, 0x30E9, 0x30A4, 0x30CA])]
        (hintKey 4 "across") = some [0x30A6, 0x30AF, 0x30E9, 0x30A4, 0x30CA]) ∧
    getHint [("4-across", [0x30A6, 0x30AF, 0x30E9, 0x30A4, 0x30CA])] 4 "across" =
      HintOutcome.ok ⟨[0x30A6, 0xFF3F, 0xFF3F, 0xFF3F, 0xFF3F], 1, 5⟩ ∧
    getHint [("4-across", [0x30A6, 0x30AF, 0x30E9, 0x30A4, 0x30CA])] 3 "across" =
      HintOutcome.unknownClue := by
  refine ⟨by decide, ?_, ?_⟩
  · exact (claim_C7_hint [("4-across", [0x30A6, 0x30AF, 0x30E9, 0x30A4, 0x30CA])]
      4 "across").2 0x30A6 [0x30AF, 0x30E9, 0x30A4, 0x30CA] (by decide)
  · exact (claim_C7_hint [("4-across", [0x30A6, 0x30AF, 0x30E9, 0x30A4, 0x30CA])]
      3 "across").1 (by decide)

/-! ## Clue numbering (claim C5) -/

/-- Index of the first occurrence of an element (length when absent). -/
def idxOf {α : Type} [DecidableEq α] : List α → α → Nat
  | [], _ => 0
  | x :: rest, a => if x = a then 0 else idxOf rest a + 1

theorem idxOf_cons_self {α : Type} [DecidableEq α] (x : α) (l : List α) :
    idxOf (x :: l) x = 0 := by
  simp [idxOf]

theorem idxOf_cons_ne {α : Type} [DecidableEq α] (x a : α) (l : List α)
    (h : x ≠ a) : idxOf (x :: l) a = idxOf l a + 1 := by
  simp [idxOf, h]

theorem idxOf_lt_length {α : Type} [DecidableEq α] :
    ∀ (l : List α) (a : α), a ∈ l → idxOf l a < l.length
  | [], a, ha => absurd ha (by simp)
  | x :: rest, a, ha => by
    by_cases he : x = a
    · rw [he, idxOf_cons_self]
      simp
    · rw [idxOf_cons_ne x a rest he]
      have ha' : a ∈ rest := by
        rcases List.mem_cons.mp ha with h | h
        · exact absurd h.symm he
        · exact h
      have := idxOf_lt_length rest a ha'
      simp only [List.length_cons]
      omega

theorem idxOf_get {α : Type} [DecidableEq α] :
    ∀ (l : List α) (a : α) (ha : a ∈ l),
      l.get ⟨idxOf l a, idxOf_lt_length l a ha⟩ = a
  | [], a, ha => absurd ha (by simp)
  | x :: rest, a, ha => by
    by_cases he : x = a
    · subst he
      simp [idxOf_cons_self]
    · have ha' : a ∈ rest := by
        rcases List.mem_cons.mp ha with h | h
        · exact absurd h.symm he
        · exact h
      have hrec := idxOf_get rest a ha'
      have hidx : idxOf (x :: rest) a = idxOf rest a + 1 := idxOf_cons_ne x a rest he
      rw [List.get_of_eq rfl]
      have : (x :: rest).get ⟨idxOf rest a + 1, by
          have := idxOf_lt_length rest a ha'
          simp only [List.length_cons]
          omega⟩ = rest.get ⟨idxOf rest a, idxOf_lt_length rest a ha'⟩ := rfl
      rw [show (⟨idxOf (x :: rest) a, idxOf_lt_length (x :: rest) a ha⟩ :
          Fin (x :: rest).length) = ⟨idxOf rest a + 1, by
            have := idxOf_lt_length rest a ha'
            simp only [List.length_cons]
            omega⟩ from Fin.ext hidx]
      rw [this, hrec]

theorem idxOf_inj {α : Type} [DecidableEq α] (l : List α) (a b : α)
    (ha : a ∈ l) (hb : b ∈ l) (he : idxOf l a = idxOf l b) : a = b := by
  have g1 := idxOf_get l a ha
  have g2 := idxOf_get l b hb
  rw [← g1, ← g2]
  congr 1
  exact Fin.ext he

theorem idxOf_of_get {α : Type} [DecidableEq α] :
    ∀ (l : List α), l.Nodup → ∀ (n : Nat) (hn : n < l.length),
      idxOf l (l.get ⟨n, hn⟩) = n
  | [], _, n, hn => absurd hn (by simp)
  | x :: rest, hnd, 0, hn => by
    simp [idxOf_cons_self]
  | x :: rest, hnd, n+1, hn => by
    have hget : (x :: rest).get ⟨n+1, hn⟩ = rest.get ⟨n, by
        simp only [List.length_cons] at hn
        omega⟩ := rfl
    rw [hget]
    have hx : x ≠ rest.get ⟨n, by
        simp only [List.length_cons] at hn
        omega⟩ := by
      intro hcontra
      have := (List.nodup_cons.mp hnd).1
      rw [hcontra] at this
      exact this (List.get_mem rest n _)
    rw [idxOf_cons_ne _ _ _ hx]
    rw [idxOf_of_get rest (List.nodup_cons.mp hnd).2 n (by
      simp only [List.length_cons] at hn
      omega)]

/-- The start cells in reading order. -/
def startCells (g : Grid) (size : Nat) : List (Nat × Nat) :=
  (readingOrder size).filter (fun rc => isStartCell g size rc.1 rc.2)

theorem assignNumbersAux_lookup (g : Grid) (size : Nat) :
    ∀ (L : List (Nat × Nat)) (n : Nat) (rc : Nat × Nat),
      (assignNumbersAux g size L n).lookup rc =
        if rc ∈ L.filter (fun x => isStartCell g size x.1 x.2) then
          some (n + idxOf (L.filter (fun x => isStartCell g size x.1 x.2)) rc)
        else none
  | [], n, rc => by simp [assignNumbersAux]
  | x :: rest, n, rc => by
    by_cases hs : isStartCell g size x.1 x.2 = true
    · have hunf : assignNumbersAux g size (x :: rest) n =
          (x, n) :: assignNumbersAux g size rest (n+1) := by
        simp only [assignNumbersAux]
        rw [if_pos hs]
      have hfil : (x :: rest).filter (fun y => isStartCell g size y.1 y.2) =
          x :: rest.filter (fun y => isStartCell g size y.1 y.2) := by
        rw [List.filter_cons]
        rw [if_pos hs]
      rw [hunf, hfil]
      by_cases he : rc = x
      · subst he
        have hlk : List.lookup rc ((rc, n) :: assignNumbersAux g size rest (n+1)) =
            some n := by simp [List.lookup]
        rw [hlk]
        rw [if_pos (List.mem_cons_self _ _)]
        rw [idxOf_cons_self]
        simp
      · have hbe : (rc == x) = false := by simpa using he
        have hlk : List.lookup rc ((x, n) :: assignNumbersAux g size rest (n+1)) =
            List.lookup rc (assignNumbersAux g size rest (n+1)) := by
          simp [List.lookup, hbe]
        rw [hlk]
        rw [assignNumbersAux_lookup g size rest (n+1) rc]
        by_cases hm : rc ∈ rest.filter (fun y => isStartCell g size y.1 y.2)
        · rw [if_pos hm, if_pos (List.mem_cons_of_mem _ hm)]
          rw [idxOf_cons_ne _ _ _ (Ne.symm he)]
          congr 1
          omega
        · rw [if_neg hm, if_neg (by
            intro hx
            rcases List.mem_cons.mp hx with hx | hx
            · exact he hx
            · exact hm hx)]
    · have hunf : assignNumbersAux g size (x :: rest) n =
          assignNumbersAux g size rest n := by
        simp only [assignNumbersAux]
        rw [if_neg hs]
      have hfil : (x :: rest).filter (fun y => isStartCell g size y.1 y.2) =
          rest.filter (fun y => isStartCell g size y.1 y.2) := by
        rw [List.filter_cons]
        rw [if_neg hs]
      rw [hunf, hfil, assignNumbersAux_lookup g size rest n rc]

theorem numberAt_char (g : Grid) (size r c : Nat) :
    numberAt g size r c =
      if (r, c) ∈ startCells g size then
        idxOf (startCells g size) (r, c) + 1
      else 0 := by
  unfold numberAt numberAssignments
  rw [assignNumbersAux_lookup g size (readingOrder size) 1 (r, c)]
  have hfold : List.filter (fun x => isStartCell g size x.1 x.2) (readingOrder size) =
      startCells g size := rfl
  rw [hfold]
  by_cases hm : (r, c) ∈ startCells g size
  · rw [if_pos hm, if_pos hm]
    show 1 + idxOf (startCells g size) (r, c) = idxOf (startCells g size) (r, c) + 1
    omega
  · rw [if_neg hm, if_neg hm]
    rfl

theorem readingOrder_mem (size : Nat) (r c : Nat) :
    (r, c) ∈ readingOrder size ↔ r < size ∧ c < size := by
  simp [readingOrder, List.mem_flatMap, List.mem_map, List.mem_range]

theorem readingOrder_nodup (size : Nat) : (readingOrder size).Nodup := by
  have heq : readingOrder size = (List.range size).product (List.range size) := rfl
  rw [heq]
  exact List.Nodup.product (List.nodup_range _) (List.nodup_range _)

theorem startCells_nodup (g : Grid) (size : Nat) : (startCells g size).Nodup :=
  (readingOrder_nodup size).filter _

theorem mem_startCells (g : Grid) (size r c : Nat) :
    (r, c) ∈ startCells g size ↔
      (r < size ∧ c < size) ∧ isStartCell g size r c = true := by
  unfold startCells
  rw [List.mem_filter, readingOrder_mem]

/-- The claim's across/down-start condition, in the spec's wording. -/
def IsStartSpec (g : Grid) (size r c : Nat) : Prop :=
  (g r c).isSome = true ∧
  (((c = 0 ∨ g r (c-1) = none) ∧ (c + 1 < size ∧ (g r (c+1)).isSome = true)) ∨
   ((r = 0 ∨ g (r-1) c = none) ∧ (r + 1 < size ∧ (g (r+1) c).isSome = true)))

theorem isStartCell_iff (g : Grid) (size r c : Nat) :
    isStartCell g size r c = true ↔ IsStartSpec g size r c := by
  unfold isStartCell IsStartSpec
  simp [Option.isNone_iff_eq_none, Decidable.or_iff_not_imp_left, Nat.pos_iff_ne_zero]

/-- C5: clue numbering of a successful synthesis scans the final grid in
reading order giving `1 + (number of earlier start cells)` to exactly the
start cells (a cell starting both directions gets the one number); the
across/down start condition is the claim's neighbour condition; no two
distinct cells share a number; exactly the numbers `1..k` are assigned; and
every placed word's `position` is the number at its starting cell. -/
theorem claim_C5_numbering (words : List WordClue) (size : Nat)
    (rng : Nat → List WordClue → List WordClue) (res : CrosswordResult)
    (h : generateCrossword words size rng = some res) :
    (∀ r c, r < size → c < size →
      (res.cells r c).number =
        (if isStartCell res.letters size r c = true then
          some (idxOf (startCells res.letters size) (r, c) + 1) else none)) ∧
    (∀ r c, isStartCell res.letters size r c = true ↔
      IsStartSpec res.letters size r c) ∧
    (∀ r c r' c', numberAt res.letters size r c ≠ 0 →
      numberAt res.letters size r c = numberAt res.letters size r' c' →
      (r, c) = (r', c')) ∧
    (∀ n, (∃ r c, r < size ∧ c < size ∧
        numberAt res.letters size r c = n + 1) ↔
      n < (startCells res.letters size).length) ∧
    (∀ w ∈ res.words, w.position = numberAt res.letters size w.startRow w.startCol) := by
  obtain ⟨b, _, _, hL, hW, hres, _⟩ := generateCrossword_spec words size rng res h
  refine ⟨?_, ?_, ?_, ?_, ?_⟩
  · intro r c hr hc
    have hnum : (res.cells r c).number =
        (if numberAt b.grid size r c = 0 then none
         else some (numberAt b.grid size r c)) := by
      rw [hres]
      rfl
    rw [hnum, hL]
    by_cases hst : isStartCell b.grid size r c = true
    · have hmem : (r, c) ∈ startCells b.grid size :=
        (mem_startCells b.grid size r c).mpr ⟨⟨hr, hc⟩, hst⟩
      rw [if_pos hst, numberAt_char, if_pos hmem, if_neg (by omega)]
    · have hmem : (r, c) ∉ startCells b.grid size := by
        intro hx
        exact hst ((mem_startCells b.grid size r c).mp hx).2
      rw [if_neg hst, numberAt_char, if_neg hmem, if_pos rfl]
  · intro r c
    exact isStartCell_iff res.letters size r c
  · intro r c r' c' hne heq
    rw [numberAt_char] at hne heq
    by_cases hm : (r, c) ∈ startCells res.letters size
    · rw [if_pos hm] at hne heq
      by_cases hm' : (r', c') ∈ startCells res.letters size
      · rw [numberAt_char, if_pos hm'] at heq
        exact idxOf_inj (startCells res.letters size) (r, c) (r', c') hm hm'
          (by omega)
      · rw [numberAt_char, if_neg hm'] at heq
        omega
    · rw [if_neg hm] at hne
      exact absurd rfl hne
  · intro n
    constructor
    · rintro ⟨r, c, _, _, hval⟩
      rw [numberAt_char] at hval
      by_cases hm : (r, c) ∈ startCells res.letters size
      · rw [if_pos hm] at hval
        have := idxOf_lt_length (startCells res.letters size) (r, c) hm
        omega
      · rw [if_neg hm] at hval
        omega
    · intro hn
      set x := (startCells res.letters size).get ⟨n, hn⟩ with hx
      have hmem : x ∈ startCells res.letters size := List.get_mem _ _ _
      have hbounds : x.1 < size ∧ x.2 < size :=
        ((mem_startCells res.letters size x.1 x.2).mp (by
          rw [show (x.1, x.2) = x from rfl]
          exact hmem)).1
      refine ⟨x.1, x.2, hbounds.1, hbounds.2, ?_⟩
      rw [numberAt_char, if_pos (by rw [show (x.1, x.2) = x from rfl]; exact hmem)]
      rw [show (x.1, x.2) = x from rfl, hx]
      rw [idxOf_of_get (startCells res.letters size) (startCells_nodup res.letters size) n hn]
  · intro w hw
    rw [hW] at hw
    rw [List.mem_map] at hw
    obtain ⟨p, hp, hpe⟩ := hw
    subst hpe
    rw [hL]
    rfl

/-! ## Attempt selection (claim C3)

The source (line 331) replaces the retained best when
`density > best.density || placed.length > best.placed.length`.  The claim
says replacement happens exactly on strictly-higher density, or on equal
density with more words.  The twin generator below differs from
`generateCrossword` only in using the claim's rule. -/

/-- The claim's selection rule: strictly higher density, or equal density
with strictly more placed words. -/
def updateBestSpec (best res : AttemptOut) : AttemptOut :=
  if best.filled < res.filled ∨
      (res.filled = best.filled ∧ best.placed.length < res.placed.length) then res
  else best

def attemptsFromSpec (rng : Nat → List WordClue → List WordClue)
    (uniqueWords : List WordClue) (size : Nat) :
    Nat → Nat → Option AttemptOut → Option AttemptOut
  | _, 0, best => best
  | i, fuel+1, best =>
    let res := attemptResult size (rng i uniqueWords)
    let best' := match best with
      | none => res
      | some b => updateBestSpec b res
    if earlyExit size res then some best'
    else attemptsFromSpec rng uniqueWords size (i+1) fuel (some best')

def bestOfSpec (words : List WordClue) (size : Nat)
    (rng : Nat → List WordClue → List WordClue) : Option AttemptOut :=
  attemptsFromSpec rng (preprocess words size) size 0 maxAttempts none

/-- `generateCrossword` with the claim's attempt-selection rule. -/
def generateCrosswordSpecSelect (words : List WordClue) (size : Nat)
    (rng : Nat → List WordClue → List WordClue) : Option CrosswordResult :=
  match bestOfSpec words size rng with
  | none => none
  | some b => if b.placed.length = 0 then none else some (buildResult size b)

theorem updateBest_self (b : AttemptOut) : updateBest b b = b := by
  unfold updateBest
  split_ifs with hx
  · simp at hx
  · rfl

theorem attemptsFrom_fixed (rng : Nat → List WordClue → List WordClue)
    (uw : List WordClue) (size : Nat) :
    ∀ (fuel i : Nat) (b : AttemptOut),
      (∀ j, i ≤ j → attemptResult size (rng j uw) = b) →
      earlyExit size b = false →
      attemptsFrom rng uw size i fuel (some b) = some b
  | 0, _, _, _, _ => rfl
  | fuel+1, i, b, hfix, hee => by
    have heq : attemptsFrom rng uw size i (fuel+1) (some b) =
        (if earlyExit size (attemptResult size (rng i uw)) = true then
          some (updateBest b (attemptResult size (rng i uw)))
        else attemptsFrom rng uw size (i+1) fuel
          (some (updateBest b (attemptResult size (rng i uw))))) := rfl
    rw [heq, hfix i (Nat.le_refl i), updateBest_self]
    rw [if_neg (by rw [hee]; exact Bool.false_ne_true)]
    exact attemptsFrom_fixed rng uw size fuel (i+1) b
      (fun j hj => hfix j (by omega)) hee

theorem attemptsFromSpec_keep (rng : Nat → List WordClue → List WordClue)
    (uw : List WordClue) (size : Nat) :
    ∀ (fuel i : Nat) (b : AttemptOut),
      (∀ j, i ≤ j →
        updateBestSpec b (attemptResult size (rng j uw)) = b ∧
        earlyExit size (attemptResult size (rng j uw)) = false) →
      attemptsFromSpec rng uw size i fuel (some b) = some b
  | 0, _, _, _ => rfl
  | fuel+1, i, b, hkeep => by
    have heq : attemptsFromSpec rng uw size i (fuel+1) (some b) =
        (if earlyExit size (attemptResult size (rng i uw)) = true then
          some (updateBestSpec b (attemptResult size (rng i uw)))
        else attemptsFromSpec rng uw size (i+1) fuel
          (some (updateBestSpec b (attemptResult size (rng i uw))))) := rfl
    obtain ⟨hupd, hee⟩ := hkeep i (Nat.le_refl i)
    rw [heq, hupd]
    rw [if_neg (by rw [hee]; exact Bool.false_ne_true)]
    exact attemptsFromSpec_keep rng uw size fuel (i+1) b
      (fun j hj => hkeep j (by omega))

/-- C3 (amended): the retained best is replaced exactly when the new
attempt's density (filled-cell count over the same grid area) is strictly
higher **or** its placed-word count is strictly higher; in particular a new
attempt with strictly lower density but more placed words does replace the
best, and the multi-attempt loop of `generateCrossword` applies exactly this
rule at every attempt. -/
theorem claim_C3_amended :
    (∀ best res : AttemptOut,
      updateBest best res =
        (if best.filled < res.filled ∨ best.placed.length < res.placed.length then res
         else best)) ∧
    (∀ best res : AttemptOut, res.filled < best.filled →
      best.placed.length < res.placed.length → updateBest best res = res) ∧
    (∀ (rng : Nat → List WordClue → List WordClue) (uw : List WordClue)
        (size i fuel : Nat) (best : AttemptOut),
      attemptsFrom rng uw size i (fuel+1) (some best) =
        (if earlyExit size (attemptResult size (rng i uw)) = true then
          some (updateBest best (attemptResult size (rng i uw)))
        else attemptsFrom rng uw size (i+1) fuel
          (some (updateBest best (attemptResult size (rng i uw)))))) := by
  refine ⟨?_, ?_, ?_⟩
  · intro best res
    unfold updateBest
    by_cases hc : best.filled < res.filled ∨ best.placed.length < res.placed.length
    · rw [if_pos hc, if_pos (by simpa using hc)]
    · rw [if_neg hc, if_neg (by simpa using hc)]
  · intro best res h1 h2
    unfold updateBest
    rw [if_pos (by simp; omega)]
  · intro rng uw size i fuel best
    rfl

/-- Candidate list for the C3 counterexample: one four-letter word sharing
no letter with a chain of three two-letter words
(アイウエ, カキ, キク, クケ). -/
def cw3 : List WordClue :=
  [⟨[0x30A2, 0x30A4, 0x30A6, 0x30A8], "p"⟩,
   ⟨[0x30AB, 0x30AD], "s1"⟩, ⟨[0x30AD, 0x30AF], "s2"⟩,
   ⟨[0x30AF, 0x30B1], "s3"⟩]

/-- Left rotation — a permutation of its input, hence a run the source's
random shuffle can take. -/
def rotOne (l : List WordClue) : List WordClue := l.drop 1 ++ l.take 1

/-- Shuffle oracle of the counterexample: attempt 0 keeps the sorted order
(long word first: it seeds, blocks the chain, 2 words on 6 cells); every
later attempt rotates the long word to the back (the chain links up around
the seed, 3 words on 4 cells). -/
def rngCE3 : Nat → List WordClue → List WordClue :=
  fun i l => if i = 0 then l else rotOne l

/-- C3 counterexample: with `cw3` on a 4×4 grid, attempt 0 produces 2 words
on 6 cells (37.5% density) and every later attempt produces 3 words on 4
cells (25%).  The source keeps the 3-word attempt — a strictly
lower-density attempt replaced the best because it has more words — while
the claim's rule keeps the 2-word, 37.5%-density attempt. -/
theorem claim_C3_counterexample :
    (generateCrossword cw3 4 rngCE3).map (fun r => (r.words.length, r.filled)) =
      some (3, 4) ∧
    (generateCrosswordSpecSelect cw3 4 rngCE3).map
      (fun r => (r.words.length, r.filled)) = some (2, 6) := by
  have hA_f : (attemptResult 4 (preprocess cw3 4)).filled = 6 := by decide
  have hA_w : (attemptResult 4 (preprocess cw3 4)).placed.length = 2 := by decide
  have hB_f : (attemptResult 4 (rotOne (preprocess cw3 4))).filled = 4 := by decide
  have hB_w : (attemptResult 4 (rotOne (preprocess cw3 4))).placed.length = 3 := by
    decide
  have heeA : earlyExit 4 (attemptResult 4 (preprocess cw3 4)) = false := by
    unfold earlyExit
    rw [hA_f, hA_w]
    decide
  have heeB : earlyExit 4 (attemptResult 4 (rotOne (preprocess cw3 4))) = false := by
    unfold earlyExit
    rw [hB_f, hB_w]
    decide
  have hrj : ∀ j, j ≠ 0 → rngCE3 j (preprocess cw3 4) = rotOne (preprocess cw3 4) := by
    intro j hj
    unfold rngCE3
    rw [if_neg hj]
  constructor
  · -- the source's run
    have h0 : attemptsFrom rngCE3 (preprocess cw3 4) 4 0 100 none =
        attemptsFrom rngCE3 (preprocess cw3 4) 4 1 99
          (some (attemptResult 4 (preprocess cw3 4))) := by
      have heq : attemptsFrom rngCE3 (preprocess cw3 4) 4 0 100 none =
          (if earlyExit 4 (attemptResult 4 (preprocess cw3 4)) = true then
            some (attemptResult 4 (preprocess cw3 4))
          else attemptsFrom rngCE3 (preprocess cw3 4) 4 1 99
            (some (attemptResult 4 (preprocess cw3 4)))) := rfl
      rw [heq, if_neg (by rw [heeA]; exact Bool.false_ne_true)]
    have hupd : updateBest (attemptResult 4 (preprocess cw3 4))
        (attemptResult 4 (rotOne (preprocess cw3 4))) =
        attemptResult 4 (rotOne (preprocess cw3 4)) := by
      unfold updateBest
      rw [if_pos (by rw [hA_f, hA_w, hB_f, hB_w]; decide)]
    have h1 : attemptsFrom rngCE3 (preprocess cw3 4) 4 1 99
        (some (attemptResult 4 (preprocess cw3 4))) =
        attemptsFrom rngCE3 (preprocess cw3 4) 4 2 98
          (some (attemptResult 4 (rotOne (preprocess cw3 4)))) := by
      have heq : attemptsFrom rngCE3 (preprocess cw3 4) 4 1 99
          (some (attemptResult 4 (preprocess cw3 4))) =
          (if earlyExit 4 (attemptResult 4 (rotOne (preprocess cw3 4))) = true then
            some (updateBest (attemptResult 4 (preprocess cw3 4))
              (attemptResult 4 (rotOne (preprocess cw3 4))))
          else attemptsFrom rngCE3 (preprocess cw3 4) 4 2 98
            (some (updateBest (attemptResult 4 (preprocess cw3 4))
              (attemptResult 4 (rotOne (preprocess cw3 4)))))) := rfl
      rw [heq, hupd, if_neg (by rw [heeB]; exact Bool.false_ne_true)]
    have h2 : attemptsFrom rngCE3 (preprocess cw3 4) 4 2 98
        (some (attemptResult 4 (rotOne (preprocess cw3 4)))) =
        some (attemptResult 4 (rotOne (preprocess cw3 4))) :=
      attemptsFrom_fixed rngCE3 (preprocess cw3 4) 4 98 2
        (attemptResult 4 (rotOne (preprocess cw3 4)))
        (fun j hj => by rw [hrj j (by omega)]) heeB
    have hbest : bestOf cw3 4 rngCE3 =
        some (attemptResult 4 (rotOne (preprocess cw3 4))) := by
      show attemptsFrom rngCE3 (preprocess cw3 4) 4 0 100 none = _
      rw [h0, h1, h2]
    have hgen : generateCrossword cw3 4 rngCE3 =
        some (buildResult 4 (attemptResult 4 (rotOne (preprocess cw3 4)))) := by
      unfold generateCrossword
      rw [hbest]
      show (if (attemptResult 4 (rotOne (preprocess cw3 4))).placed.length = 0 then
          none else some (buildResult 4 (attemptResult 4 (rotOne (preprocess cw3 4))))) = _
      rw [if_neg (by rw [hB_w]; decide)]
    rw [hgen]
    show some ((buildResult 4 (attemptResult 4 (rotOne (preprocess cw3 4)))).words.length,
      (buildResult 4 (attemptResult 4 (rotOne (preprocess cw3 4)))).filled) = some (3, 4)
    have hwl : (buildResult 4 (attemptResult 4 (rotOne (preprocess cw3 4)))).words.length =
        3 := by
      show (List.map (toPlacedWord (attemptResult 4 (rotOne (preprocess cw3 4))).grid 4)
        (attemptResult 4 (rotOne (preprocess cw3 4))).placed).length = 3
      rw [List.length_map, hB_w]
    have hfl : (buildResult 4 (attemptResult 4 (rotOne (preprocess cw3 4)))).filled = 4 :=
      hB_f
    rw [hwl, hfl]
  · -- the claim's selection rule keeps attempt 0
    have hupd : updateBestSpec (attemptResult 4 (preprocess cw3 4))
        (attemptResult 4 (rotOne (preprocess cw3 4))) =
        attemptResult 4 (preprocess cw3 4) := by
      unfold updateBestSpec
      rw [if_neg (by rw [hA_f, hA_w, hB_f, hB_w]; decide)]
    have h0 : attemptsFromSpec rngCE3 (preprocess cw3 4) 4 0 100 none =
        attemptsFromSpec rngCE3 (preprocess cw3 4) 4 1 99
          (some (attemptResult 4 (preprocess cw3 4))) := by
      have heq : attemptsFromSpec rngCE3 (preprocess cw3 4) 4 0 100 none =
          (if earlyExit 4 (attemptResult 4 (preprocess cw3 4)) = true then
            some (attemptResult 4 (preprocess cw3 4))
          else attemptsFromSpec rngCE3 (preprocess cw3 4) 4 1 99
            (some (attemptResult 4 (preprocess cw3 4)))) := rfl
      rw [heq, if_neg (by rw [heeA]; exact Bool.false_ne_true)]
    have h1 : attemptsFromSpec rngCE3 (preprocess cw3 4) 4 1 99
        (some (attemptResult 4 (preprocess cw3 4))) =
        some (attemptResult 4 (preprocess cw3 4)) :=
      attemptsFromSpec_keep rngCE3 (preprocess cw3 4) 4 99 1
        (attemptResult 4 (preprocess cw3 4))
        (fun j hj => by rw [hrj j (by omega)]; exact ⟨hupd, heeB⟩)
    have hbest : bestOfSpec cw3 4 rngCE3 =
        some (attemptResult 4 (preprocess cw3 4)) := by
      show attemptsFromSpec rngCE3 (preprocess cw3 4) 4 0 100 none = _
      rw [h0, h1]
    have hgen : generateCrosswordSpecSelect cw3 4 rngCE3 =
        some (buildResult 4 (attemptResult 4 (preprocess cw3 4))) := by
      unfold generateCrosswordSpecSelect
      rw [hbest]
      show (if (attemptResult 4 (preprocess cw3 4)).placed.length = 0 then
          none else some (buildResult 4 (attemptResult 4 (preprocess cw3 4)))) = _
      rw [if_neg (by rw [hA_w]; decide)]
    rw [hgen]
    show some ((buildResult 4 (attemptResult 4 (preprocess cw3 4))).words.length,
      (buildResult 4 (attemptResult 4 (preprocess cw3 4))).filled) = some (2, 6)
    have hwl : (buildResult 4 (attemptResult 4 (preprocess cw3 4))).words.length = 2 := by
      show (List.map (toPlacedWord (attemptResult 4 (preprocess cw3 4)).grid 4)
        (attemptResult 4 (preprocess cw3 4)).placed).length = 2
      rw [List.length_map, hA_w]
    have hfl : (buildResult 4 (attemptResult 4 (preprocess cw3 4))).filled = 6 := hA_f
    rw [hwl, hfl]

/-- Witness for the amended C3: a 6-cell 2-word best is replaced by a
4-cell 3-word attempt under the source's rule. -/
theorem claim_C3_amended_witness :
    ((attemptResult 4 (rotOne (preprocess cw3 4))).filled <
      (attemptResult 4 (preprocess cw3 4)).filled ∧
     (attemptResult 4 (preprocess cw3 4)).placed.length <
      (attemptResult 4 (rotOne (preprocess cw3 4))).placed.length) ∧
    updateBest (attemptResult 4 (preprocess cw3 4))
        (attemptResult 4 (rotOne (preprocess cw3 4))) =
      attemptResult 4 (rotOne (preprocess cw3 4)) :=
  ⟨⟨by decide, by decide⟩,
    claim_C3_amended.2.1 (attemptResult 4 (preprocess cw3 4))
      (attemptResult 4 (rotOne (preprocess cw3 4))) (by decide) (by decide)⟩

/-! ## Closed-form results for the concrete runs

With a shuffle that does not depend on the attempt index the 100 attempts
coincide, so the loop's result is the first attempt's result. -/

theorem attemptsFrom_none_const (rng : Nat → List WordClue → List WordClue)
    (uw : List WordClue) (size : Nat) (b : AttemptOut)
    (hfix : ∀ j, attemptResult size (rng j uw) = b)
    (hee : earlyExit size b = false) (fuel i : Nat) :
    attemptsFrom rng uw size i (fuel+1) none = some b := by
  have heq : attemptsFrom rng uw size i (fuel+1) none =
      (if earlyExit size (attemptResult size (rng i uw)) = true then
        some (attemptResult size (rng i uw))
      else attemptsFrom rng uw size (i+1) fuel
        (some (attemptResult size (rng i uw)))) := rfl
  rw [heq, hfix i]
  rw [if_neg (by rw [hee]; exact Bool.false_ne_true)]
  exact attemptsFrom_fixed rng uw size fuel (i+1) b (fun j _ => hfix j) hee

def outNEKO : AttemptOut := attemptResult 5 (preprocess [wNEKO] 5)

def resNEKO : CrosswordResult := buildResult 5 outNEKO

theorem bestOf_NEKO : bestOf [wNEKO] 5 rngId = some outNEKO := by
  show attemptsFrom rngId (preprocess [wNEKO] 5) 5 0 maxAttempts none =
    some outNEKO
  exact attemptsFrom_none_const rngId (preprocess [wNEKO] 5) 5 outNEKO
    (fun j => rfl) (by decide) 99 0

theorem genNEKO : generateCrossword [wNEKO] 5 rngId = some resNEKO := by
  unfold generateCrossword
  rw [bestOf_NEKO]
  show (if outNEKO.placed.length = 0 then none
    else some (buildResult 5 outNEKO)) = some resNEKO
  rw [if_neg (by decide)]
  rfl

def outKN : AttemptOut :=
  attemptResult 5 ((preprocess [wKOTO, wNEKOTORI] 5).reverse)

def resKN : CrosswordResult := buildResult 5 outKN

theorem bestOf_KN : bestOf [wKOTO, wNEKOTORI] 5 rngRev = some outKN := by
  show attemptsFrom rngRev (preprocess [wKOTO, wNEKOTORI] 5) 5 0 maxAttempts
    none = some outKN
  exact attemptsFrom_none_const rngRev (preprocess [wKOTO, wNEKOTORI] 5) 5 outKN
    (fun j => rfl) (by decide) 99 0

theorem genKN : generateCrossword [wKOTO, wNEKOTORI] 5 rngRev = some resKN := by
  unfold generateCrossword
  rw [bestOf_KN]
  show (if outKN.placed.length = 0 then none
    else some (buildResult 5 outKN)) = some resKN
  rw [if_neg (by decide)]
  rfl

/-- C4 counterexample: placing コト first and ネコトリ over it (the source's
`findPlacements` admits the superset placement) leaves コト with the letter
ネ immediately before its first cell in the final grid: the claimed
termination invariant fails on the returned puzzle. -/
theorem claim_C4_counterexample :
    (generateCrossword [wKOTO, wNEKOTORI] 5 rngRev).isSome = true ∧
    ¬ TerminationInvariant
        (getResult (generateCrossword [wKOTO, wNEKOTORI] 5 rngRev)) 5 := by
  rw [genKN]
  constructor
  · rfl
  · show ¬ TerminationInvariant resKN 5
    intro hTI
    have hmem : (⟨[0x30B3, 0x30C8], "koto", 2, 1, 0, Orientation.across, 2⟩ :
        PlacedWord) ∈ resKN.words := by
      decide
    have hx := ((hTI _ hmem).1 rfl).1 (by decide)
    revert hx
    decide

theorem claim_C1_adjacency_witness :
    AdjacencyInvariant (getResult (generateCrossword [wNEKO] 5 rngId)) :=
  claim_C1_adjacency [wNEKO] 5 rngId
    (getResult (generateCrossword [wNEKO] 5 rngId)) (by rw [genNEKO]; rfl)

theorem claim_C10_no_orphans_witness :
    NoOrphans (getResult (generateCrossword [wNEKO] 5 rngId)) :=
  claim_C10_no_orphans [wNEKO] 5 rngId
    (getResult (generateCrossword [wNEKO] 5 rngId)) (by rw [genNEKO]; rfl)

theorem claim_C4_amended_witness :
    TerminationOrExtended (getResult (generateCrossword [wNEKO] 5 rngId)) 5 :=
  claim_C4_amended [wNEKO] 5 rngId (fun _ l => List.Perm.refl l)
    (getResult (generateCrossword [wNEKO] 5 rngId)) (by rw [genNEKO]; rfl)

theorem claim_C5_numbering_witness :
    (∀ r c, r < 5 → c < 5 →
      ((getResult (generateCrossword [wNEKO] 5 rngId)).cells r c).number =
        (if isStartCell (getResult (generateCrossword [wNEKO] 5 rngId)).letters 5 r c =
            true then
          some (idxOf (startCells
            (getResult (generateCrossword [wNEKO] 5 rngId)).letters 5) (r, c) + 1)
         else none)) ∧
    (∀ r c, isStartCell (getResult (generateCrossword [wNEKO] 5 rngId)).letters 5 r c =
        true ↔
      IsStartSpec (getResult (generateCrossword [wNEKO] 5 rngId)).letters 5 r c) ∧
    (∀ r c r' c',
      numberAt (getResult (generateCrossword [wNEKO] 5 rngId)).letters 5 r c ≠ 0 →
      numberAt (getResult (generateCrossword [wNEKO] 5 rngId)).letters 5 r c =
        numberAt (getResult (generateCrossword [wNEKO] 5 rngId)).letters 5 r' c' →
      (r, c) = (r', c')) ∧
    (∀ n, (∃ r c, r < 5 ∧ c < 5 ∧
        numberAt (getResult (generateCrossword [wNEKO] 5 rngId)).letters 5 r c = n + 1) ↔
      n < (startCells (getResult (generateCrossword [wNEKO] 5 rngId)).letters 5).length) ∧
    (∀ w ∈ (getResult (generateCrossword [wNEKO] 5 rngId)).words,
      w.position = numberAt (getResult (generateCrossword [wNEKO] 5 rngId)).letters 5
        w.startRow w.startCol) :=
  claim_C5_numbering [wNEKO] 5 rngId
    (getResult (generateCrossword [wNEKO] 5 rngId)) (by rw [genNEKO]; rfl)

/-! ## InsufficientWords (claim C8) -/

theorem cellsOk_empty (size : Nat) (row col : Nat) (h : Bool) :
    ∀ (word : List Nat) (i : Nat),
      cellsOk emptyGrid size row col h word i = some false
  | [], _ => rfl
  | ch :: rest, i => by
    have hperp : perpOk emptyGrid size h (cellR row h i) (cellC col h i) = true := by
      cases h <;> simp [perpOk, emptyGrid]
    show (if perpOk emptyGrid size h (cellR row h i) (cellC col h i) = true then
        cellsOk emptyGrid size row col h rest (i+1)
      else none) = some false
    rw [if_pos hperp]
    exact cellsOk_empty size row col h rest (i+1)

theorem canPlaceWord_empty (size : Nat) (word : List Nat) (row col : Nat)
    (hb : col + word.length ≤ size) :
    canPlaceWord emptyGrid size word row col true false = true := by
  have hE : endsOk emptyGrid size word row col true = true := by
    have hE' : endsOk emptyGrid size word row col true =
        (if size < col + word.length then false
         else if decide (0 < col) && (emptyGrid row (col-1)).isSome then false
         else if decide (col + word.length < size) &&
             (emptyGrid row (col+word.length)).isSome then false
         else true) := rfl
    rw [hE']
    rw [if_neg (by omega)]
    rw [if_neg (by simp [emptyGrid])]
    rw [if_neg (by simp [emptyGrid])]
  unfold canPlaceWord
  rw [if_pos hE, cellsOk_empty]
  rfl

theorem mainStep_len (size : Nat) (st : St) (w : WordClue) :
    st.2.length ≤ (mainStep size st w).2.length := by
  unfold mainStep
  rcases hfp : findPlacements st.1 size w.answer true with _ | ⟨p, rest⟩
  · exact Nat.le_refl _
  · simp

theorem edgeStep_len (size : Nat) (st : St) (w : WordClue) :
    st.2.length ≤ (edgeStep size st w).2.length := by
  unfold edgeStep
  rcases hfp : (findPlacements st.1 size w.answer false).filter
      (isEdgePlacement size w.answer.length) with _ | ⟨p, rest⟩
  · exact Nat.le_refl _
  · simp

theorem foldl_len (size : Nat) (step : St → WordClue → St)
    (hstep : ∀ st w, st.2.length ≤ (step st w).2.length) :
    ∀ (l : List WordClue) (st : St), st.2.length ≤ (l.foldl step st).2.length
  | [], _ => Nat.le_refl _
  | w :: ws, st =>
    Nat.le_trans (hstep st w) (foldl_len size step hstep ws (step st w))

theorem runAttempt_len_seed (size : Nat) (shuffled : List WordClue) :
    (seedSt size shuffled).2.length ≤ (runAttempt size shuffled).2.length := by
  have h1 := foldl_len size (mainStep size) (mainStep_len size)
    (shuffled.drop 1) (seedSt size shuffled)
  have h2 := foldl_len size (edgeStep size) (edgeStep_len size)
    ((shuffled.filter (fun w =>
        !(((shuffled.drop 1).foldl (mainStep size)
            (seedSt size shuffled)).2.any
          (fun p => p.word.answer == w.answer)))).filter
      (fun w => decide (w.answer.length ≤ 3)))
    ((shuffled.drop 1).foldl (mainStep size) (seedSt size shuffled))
  exact Nat.le_trans h1 h2

theorem runAttempt_placed_pos (size : Nat) (shuffled : List WordClue)
    (hne : shuffled ≠ [])
    (hlen : ∀ w ∈ shuffled, 1 ≤ w.answer.length ∧ w.answer.length ≤ size) :
    1 ≤ (runAttempt size shuffled).2.length := by
  have hmono := runAttempt_len_seed size shuffled
  rcases shuffled with _ | ⟨first, rest⟩
  · exact absurd rfl hne
  · have hflen := hlen first (List.mem_cons_self _ _)
    have hcan : canPlaceWord emptyGrid size first.answer (size / 2)
        ((size - first.answer.length) / 2) true false = true := by
      apply canPlaceWord_empty
      have := Nat.div_le_self (size - first.answer.length) 2
      omega
    have hseed : (seedSt size (first :: rest)).2.length = 1 := by
      have heq : seedSt size (first :: rest) =
          (if canPlaceWord emptyGrid size first.answer (size / 2)
              ((size - first.answer.length) / 2) true false = true then
            (placeWord emptyGrid first.answer (size / 2)
                ((size - first.answer.length) / 2) true,
              [⟨first, size / 2, (size - first.answer.length) / 2, true⟩])
          else (emptyGrid, [])) := rfl
      rw [heq, if_pos hcan]
      rfl
    omega

theorem attemptsFrom_isSome (rng : Nat → List WordClue → List WordClue)
    (uw : List WordClue) (size : Nat) :
    ∀ (fuel i : Nat) (best : Option AttemptOut),
      (0 < fuel ∨ best.isSome = true) →
      (attemptsFrom rng uw size i fuel best).isSome = true
  | 0, _, best, h => by
    rcases h with h | h
    · omega
    · exact h
  | fuel+1, i, best, _ => by
    rcases best with _ | x
    · have heq : attemptsFrom rng uw size i (fuel+1) none =
          (if earlyExit size (attemptResult size (rng i uw)) = true then
            some (attemptResult size (rng i uw))
          else attemptsFrom rng uw size (i+1) fuel
            (some (attemptResult size (rng i uw)))) := rfl
      rw [heq]
      by_cases he : earlyExit size (attemptResult size (rng i uw)) = true
      · rw [if_pos he]
        rfl
      · rw [if_neg he]
        exact attemptsFrom_isSome rng uw size fuel (i+1) _ (Or.inr rfl)
    · have heq : attemptsFrom rng uw size i (fuel+1) (some x) =
          (if earlyExit size (attemptResult size (rng i uw)) = true then
            some (updateBest x (attemptResult size (rng i uw)))
          else attemptsFrom rng uw size (i+1) fuel
            (some (updateBest x (attemptResult size (rng i uw))))) := rfl
      rw [heq]
      by_cases he : earlyExit size (attemptResult size (rng i uw)) = true
      · rw [if_pos he]
        rfl
      · rw [if_neg he]
        exact attemptsFrom_isSome rng uw size fuel (i+1) _ (Or.inr rfl)

/-- C8: synthesis fails with InsufficientWords exactly when the final best
has zero placed words; a candidate list whose answers all normalize outside
`2..N` graphemes leaves no candidates and fails; a list with at least one
surviving candidate always succeeds. -/
theorem claim_C8_insufficient_words (words : List WordClue) (size : Nat)
    (rng : Nat → List WordClue → List WordClue)
    (hrng : ∀ i l, (rng i l).Perm l) :
    (∀ b, bestOf words size rng = some b →
      (generateCrossword words size rng = none ↔ b.placed.length = 0)) ∧
    ((∀ w ∈ words, (normalizeJapanese w.answer).length < 2 ∨
        size < (normalizeJapanese w.answer).length) →
      preprocess words size = [] ∧ generateCrossword words size rng = none) ∧
    (preprocess words size ≠ [] →
      (generateCrossword words size rng).isSome = true) := by
  have hmain : ∀ b, bestOf words size rng = some b →
      (generateCrossword words size rng = none ↔ b.placed.length = 0) := by
    intro b hb
    unfold generateCrossword
    rw [hb]
    constructor
    · intro h
      by_cases hz : b.placed.length = 0
      · exact hz
      · have h' : (if b.placed.length = 0 then none
            else some (buildResult size b)) = none := h
        rw [if_neg hz] at h'
        cases h'
    · intro hz
      show (if b.placed.length = 0 then none
        else some (buildResult size b)) = none
      rw [if_pos hz]
  refine ⟨hmain, ?_, ?_⟩
  · intro hall
    have hpre : preprocess words size = [] := by
      unfold preprocess
      have hfil : ((words.map (fun w =>
          WordClue.mk (normalizeJapanese w.answer) w.clue)).filter
          (fun w => decide (2 ≤ w.answer.length) && decide (w.answer.length ≤ size))) =
          ([] : List WordClue) := by
        rw [List.filter_eq_nil_iff]
        intro a ha
        rw [List.mem_map] at ha
        obtain ⟨orig, horig, heq⟩ := ha
        have hor := hall orig horig
        subst heq
        show ¬((decide (2 ≤ (normalizeJapanese orig.answer).length) &&
          decide ((normalizeJapanese orig.answer).length ≤ size)) = true)
        simp only [Bool.and_eq_true, decide_eq_true_iff, not_and]
        intro h2
        omega
      rw [hfil]
      rfl
    refine ⟨hpre, ?_⟩
    obtain ⟨b, hb⟩ := Option.isSome_iff_exists.mp
      (attemptsFrom_isSome rng (preprocess words size) size maxAttempts 0 none
        (Or.inl (by unfold maxAttempts; omega)))
    have hb' : bestOf words size rng = some b := hb
    rw [(hmain b hb')]
    refine attemptsFrom_pres rng (preprocess words size) size
      (fun x => x.placed.length = 0) ?_ maxAttempts 0 none b ?_ hb'
    · intro j
      show (attemptResult size (rng j (preprocess words size))).placed.length = 0
      rw [hpre]
      have hnil : rng j [] = [] := (hrng j []).eq_nil
      rw [hnil]
      rfl
    · intro x hx
      cases hx
  · intro hne
    obtain ⟨b, hb⟩ := Option.isSome_iff_exists.mp
      (attemptsFrom_isSome rng (preprocess words size) size maxAttempts 0 none
        (Or.inl (by unfold maxAttempts; omega)))
    have hb' : bestOf words size rng = some b := hb
    have hpos : 1 ≤ b.placed.length := by
      refine attemptsFrom_pres rng (preprocess words size) size
        (fun x => 1 ≤ x.placed.length) ?_ maxAttempts 0 none b ?_ hb'
      · intro j
        show 1 ≤ (runAttempt size (rng j (preprocess words size))).2.length
        apply runAttempt_placed_pos
        · intro hnil
          have hperm := (hrng j (preprocess words size)).symm
          rw [hnil] at hperm
          exact hne hperm.eq_nil
        · intro w hw
          have hmem := (hrng j (preprocess words size)).mem_iff.mp hw
          have hpm := preprocess_mem words size w hmem
          exact ⟨by omega, hpm.2.1⟩
      · intro x hx
        cases hx
    unfold generateCrossword
    rw [hb']
    show (if b.placed.length = 0 then none
      else some (buildResult size b)).isSome = true
    rw [if_neg (by omega)]
    rfl

/-- Witness: the single length-1 candidate ア is filtered out and synthesis
fails; the single surviving candidate ネコ yields a successful result. -/
theorem claim_C8_insufficient_words_witness :
    (preprocess [wA1] 5 = [] ∧ generateCrossword [wA1] 5 rngId = none) ∧
    (generateCrossword [wNEKO] 5 rngId).isSome = true := by
  constructor
  · exact (claim_C8_insufficient_words [wA1] 5 rngId
      (fun _ l => List.Perm.refl l)).2.1 (by decide)
  · exact (claim_C8_insufficient_words [wNEKO] 5 rngId
      (fun _ l => List.Perm.refl l)).2.2 (by decide)

/-! ## Round-trip answer check (claim C6) -/

/-- The `_answers` table (puzzleService.ts lines 136-139): one record entry
per placed word under key `"{position}-{orientation}"`. -/
def answersTable (ws : List PlacedWord) : List (String × List Nat) :=
  ws.map (fun w => (hintKey w.position w.orientation.str, w.answer))

/-- One iteration of the `checkAnswers` loop (puzzleService.ts lines
215-226): keys absent from the stored table are skipped. -/
def checkStep (stored : List (String × List Nat))
    (acc : List String × List String) (e : String × List Nat) :
    List String × List String :=
  match recLookup stored e.1 with
  | none => acc
  | some correctAnswer =>
    if normalizeJapanese e.2 = correctAnswer then (acc.1 ++ [e.1], acc.2)
    else (acc.1, acc.2 ++ [e.1])

/-- `checkAnswers` (puzzleService.ts lines 202-229) over the stored table. -/
def checkAnswers (stored answers : List (String × List Nat)) :
    List String × List String :=
  answers.foldl (checkStep stored) ([], [])

def tableKeysAux : List (String × List Nat) → List String → List String
  | [], _ => []
  | e :: rest, seen =>
    if e.1 ∈ seen then tableKeysAux rest seen
    else e.1 :: tableKeysAux rest (e.1 :: seen)

/-- `Object.keys` of a JS record built left to right: first-insertion order. -/
def tableKeys (t : List (String × List Nat)) : List String :=
  tableKeysAux t []

/-- The round-trip input: for every key of the table, its stored answer. -/
def roundTripInput (stored : List (String × List Nat)) :
    List (String × List Nat) :=
  (tableKeys stored).map (fun k => (k, (recLookup stored k).getD []))

theorem recLookup_aux_mem {α : Type} :
    ∀ (t : List (String × α)) (acc : Option α) (k : String) (v : α),
      t.foldl (fun acc e => if e.1 = k then some e.2 else acc) acc = some v →
      (k, v) ∈ t ∨ acc = some v
  | [], _, _, _, h => Or.inr h
  | e :: rest, acc, k, v, h => by
    rw [List.foldl_cons] at h
    rcases recLookup_aux_mem rest _ k v h with hmem | hacc
    · exact Or.inl (List.mem_cons_of_mem _ hmem)
    · by_cases he : e.1 = k
      · rw [if_pos he] at hacc
        injection hacc with hv
        left
        rw [← he, ← hv]
        exact List.mem_cons_self _ _
      · rw [if_neg he] at hacc
        exact Or.inr hacc

theorem recLookup_mem {α : Type} (t : List (String × α)) (k : String) (v : α)
    (h : recLookup t k = some v) : (k, v) ∈ t := by
  rcases recLookup_aux_mem t none k v h with hmem | hacc
  · exact hmem
  · cases hacc

theorem recLookup_aux_isSome {α : Type} :
    ∀ (t : List (String × α)) (acc : Option α) (k : String),
      (k ∈ t.map Prod.fst ∨ acc.isSome = true) →
      (t.foldl (fun acc e => if e.1 = k then some e.2 else acc) acc).isSome = true
  | [], acc, k, h => by
    rcases h with h | h
    · exact absurd h (by simp)
    · exact h
  | e :: rest, acc, k, h => by
    rw [List.foldl_cons]
    apply recLookup_aux_isSome rest _ k
    by_cases he : e.1 = k
    · right
      rw [if_pos he]
      rfl
    · rcases h with h | h
      · rcases List.mem_cons.mp h with hk | h'
        · exact absurd hk.symm he
        · exact Or.inl h'
      · right
        rw [if_neg he]
        exact h

theorem recLookup_isSome {α : Type} (t : List (String × α)) (k : String)
    (h : k ∈ t.map Prod.fst) : (recLookup t k).isSome = true :=
  recLookup_aux_isSome t none k (Or.inl h)

theorem tableKeysAux_sub :
    ∀ (t : List (String × List Nat)) (seen : List String) (k : String),
      k ∈ tableKeysAux t seen → k ∈ t.map Prod.fst
  | [], _, k, h => absurd h (by simp [tableKeysAux])
  | e :: rest, seen, k, h => by
    rw [show tableKeysAux (e :: rest) seen =
        (if e.1 ∈ seen then tableKeysAux rest seen
         else e.1 :: tableKeysAux rest (e.1 :: seen)) from rfl] at h
    by_cases hs : e.1 ∈ seen
    · rw [if_pos hs] at h
      exact List.mem_cons_of_mem _ (tableKeysAux_sub rest seen k h)
    · rw [if_neg hs] at h
      rcases List.mem_cons.mp h with he | h'
      · exact List.mem_cons.mpr (Or.inl he)
      · exact List.mem_cons_of_mem _ (tableKeysAux_sub rest _ k h')

theorem roundTripInput_keys (stored : List (String × List Nat)) :
    (roundTripInput stored).map Prod.fst = tableKeys stored := by
  unfold roundTripInput
  rw [List.map_map]
  exact List.map_id _

theorem checkStep_correct (stored : List (String × List Nat))
    (c inc : List String) (k : String) (ans v : List Nat)
    (hv : recLookup stored k = some v) (h : normalizeJapanese ans = v) :
    checkStep stored (c, inc) (k, ans) = (c ++ [k], inc) := by
  unfold checkStep
  simp only [hv]
  rw [if_pos h]

theorem checkStep_incorrect (stored : List (String × List Nat))
    (c inc : List String) (k : String) (ans v : List Nat)
    (hv : recLookup stored k = some v) (h : normalizeJapanese ans ≠ v) :
    checkStep stored (c, inc) (k, ans) = (c, inc ++ [k]) := by
  unfold checkStep
  simp only [hv]
  rw [if_neg h]

theorem checkAnswers_aux_correct (stored : List (String × List Nat)) :
    ∀ (u : List (String × List Nat)) (c inc : List String),
      (∀ e ∈ u, ∃ v, recLookup stored e.1 = some v ∧ normalizeJapanese e.2 = v) →
      u.foldl (checkStep stored) (c, inc) = (c ++ u.map Prod.fst, inc)
  | [], c, inc, _ => by simp
  | e :: rest, c, inc, hu => by
    obtain ⟨v, hv, hnorm⟩ := hu e (List.mem_cons_self _ _)
    rw [List.foldl_cons]
    rw [show checkStep stored (c, inc) e = checkStep stored (c, inc) (e.1, e.2)
      from rfl]
    rw [checkStep_correct stored c inc e.1 e.2 v hv hnorm]
    rw [checkAnswers_aux_correct stored rest (c ++ [e.1]) inc
      (fun e' he' => hu e' (List.mem_cons_of_mem _ he'))]
    simp

theorem checkAnswers_single_incorrect (stored : List (String × List Nat))
    (k : String) (ans v : List Nat) (hv : recLookup stored k = some v)
    (hne : normalizeJapanese ans ≠ v) :
    checkAnswers stored [(k, ans)] = ([], [k]) := by
  unfold checkAnswers
  rw [List.foldl_cons]
  rw [checkStep_incorrect stored [] [] k ans v hv hne]
  rfl

theorem set_ne_of_get_ne (a : List Nat) (i : Nat) (hi : i < a.length)
    (g' : Nat) (hne : g' ≠ a.get ⟨i, hi⟩) : a.set i g' ≠ a := by
  intro hEq
  have h1 : (a.set i g')[i]? = a[i]? := congrArg (fun l => l[i]?) hEq
  rw [show (a.set i g')[i]? = some g' from by simp [hi]] at h1
  rw [show a[i]? = some (a.get ⟨i, hi⟩) from by simp] at h1
  exact hne (Option.some.inj h1)

theorem answersTable_values_norm (words : List WordClue) (size : Nat)
    (rng : Nat → List WordClue → List WordClue)
    (hrng : ∀ i l, (rng i l).Perm l) (res : CrosswordResult)
    (hres : generateCrossword words size rng = some res) :
    ∀ e ∈ answersTable res.words, normalizeJapanese e.2 = e.2 := by
  intro e he
  obtain ⟨b, hb, _, _, hwords, _, _⟩ := generateCrossword_spec words size rng res hres
  rw [hwords] at he
  unfold answersTable at he
  rw [List.map_map, List.mem_map] at he
  obtain ⟨p, hp, hpe⟩ := he
  have hmem := bestOf_words_mem words size rng hrng b hb p hp
  have hnorm := (preprocess_mem words size p.word hmem).2.2
  rw [← hpe]
  exact hnorm

/-- C6: on any successful synthesis result, checking with the stored answer
for every key of the answers table marks every key correct and none
incorrect; altering one grapheme of a stored answer to a different
normalized grapheme makes that key incorrect. -/
theorem claim_C6_round_trip (words : List WordClue) (size : Nat)
    (rng : Nat → List WordClue → List WordClue)
    (hrng : ∀ i l, (rng i l).Perm l) (res : CrosswordResult)
    (hres : generateCrossword words size rng = some res) :
    checkAnswers (answersTable res.words)
        (roundTripInput (answersTable res.words)) =
      (tableKeys (answersTable res.words), []) ∧
    (∀ k a, recLookup (answersTable res.words) k = some a →
      ∀ i (hi : i < a.length) (g' : Nat), normChar g' = g' →
        g' ≠ a.get ⟨i, hi⟩ →
        checkAnswers (answersTable res.words) [(k, a.set i g')] = ([], [k])) := by
  have hvals := answersTable_values_norm words size rng hrng res hres
  constructor
  · have hu : ∀ e ∈ roundTripInput (answersTable res.words),
        ∃ v, recLookup (answersTable res.words) e.1 = some v ∧
          normalizeJapanese e.2 = v := by
      intro e he
      unfold roundTripInput at he
      rw [List.mem_map] at he
      obtain ⟨k, hk, hke⟩ := he
      have hsome := recLookup_isSome (answersTable res.words) k
        (tableKeysAux_sub _ _ _ hk)
      obtain ⟨v, hv⟩ := Option.isSome_iff_exists.mp hsome
      refine ⟨v, ?_, ?_⟩
      · rw [← hke]
        exact hv
      · have hval := hvals (k, v) (recLookup_mem _ _ _ hv)
        rw [← hke]
        show normalizeJapanese ((recLookup (answersTable res.words) k).getD []) = v
        rw [hv]
        exact hval
    unfold checkAnswers
    rw [checkAnswers_aux_correct (answersTable res.words)
      (roundTripInput (answersTable res.words)) [] [] hu]
    rw [List.nil_append, roundTripInput_keys]
  · intro k a hka i hi g' hg hne
    have hnorm := hvals (k, a) (recLookup_mem _ _ _ hka)
    have hset : normalizeJapanese (a.set i g') = a.set i g' := by
      rw [normalizeJapanese_eq_map, List.map_set]
      have hmap : a.map normChar = a := by
        rw [← normalizeJapanese_eq_map]
        exact hnorm
      rw [hmap, hg]
    have hne2 : normalizeJapanese (a.set i g') ≠ a := by
      rw [hset]
      exact set_ne_of_get_ne a i hi g' hne
    exact checkAnswers_single_incorrect (answersTable res.words) k
      (a.set i g') a hka hne2

/-- Witness: the puzzle generated from ネコ alone has answers table
`1-across ↦ ネコ`; supplying it round-trips to `(["1-across"], [])`, and
altering its second grapheme コ to ア makes `1-across` incorrect. -/
theorem claim_C6_round_trip_witness :
    checkAnswers (answersTable (getResult (generateCrossword [wNEKO] 5 rngId)).words)
        (roundTripInput (answersTable
          (getResult (generateCrossword [wNEKO] 5 rngId)).words)) =
      (tableKeys (answersTable
        (getResult (generateCrossword [wNEKO] 5 rngId)).words), []) ∧
    checkAnswers (answersTable (getResult (generateCrossword [wNEKO] 5 rngId)).words)
        [("1-across", List.set [0x30CD, 0x30B3] 1 0x30A2)] = ([], ["1-across"]) := by
  refine ⟨(claim_C6_round_trip [wNEKO] 5 rngId (fun _ l => List.Perm.refl l)
    (getResult (generateCrossword [wNEKO] 5 rngId)) (by rw [genNEKO]; rfl)).1, ?_⟩
  exact (claim_C6_round_trip [wNEKO] 5 rngId (fun _ l => List.Perm.refl l)
    (getResult (generateCrossword [wNEKO] 5 rngId)) (by rw [genNEKO]; rfl)).2
    "1-across" [0x30CD, 0x30B3] (by rw [genNEKO]; decide) 1 (by decide) 0x30A2
    (by decide) (by decide)

end Crossword
